import Mathlib

/-!
# Sunplate toolkit: skeleton generator and directory watcher

A shallow embedding of

* `create/create.go` (`start`, `result`, `walkFunc`),
* `internal/watcher/watcher.go` (`glob`, `restartRequired`, `NotifyOnUpdate`, `Listen`),
* `utils/tool/tool.go` (`NewContext`, `Run`, `Requested`, `GetDefault`),

together with the parts of Go's `path/filepath` they run on (`Clean`, `Join`,
`Ext`, `Walk`, as in the current Go release).  Go strings are Lean strings;
the only bytes the code compares against (`'*'`, `'/'`, `'.'`) are ASCII, so
indexing bytes and indexing characters agree on them.

What the two files call but do not define is kept apart: the helpers of the
package `path` are parameters (`PathPkg`), `CreateDir`, `copyFile` and
`copyModifiedFile` are recorded as calls that return (`Effect`), and
`log.Error.Panicf` ends the run with a panic.  The order of a `range` over a
map, which Go does not fix, is selected by a seed (`GoMap.range`).  What
`Listen` gets from `fsnotify` and `log` is a parameter (`Notify`), and a
`flag.FlagSet` is what its `Parse` returns (`tool.FlagSet`).
-/

namespace Sunplate

/-! ## Errors -/

/-- Errors the operating system reports for a path. -/
inductive FsErr where
  | notExist
  | other (msg : String)
  deriving DecidableEq, Repr

/-- Go `error` values that reach the code: the two sentinels of `path/filepath`,
errors of the file system, and errors made with `errors.New`. -/
inductive GoError where
  | SkipDir
  | SkipAll
  | fs (e : FsErr)
  | new (msg : String)
  deriving DecidableEq, Repr

/-- The `os.IsNotExist` test on an `error` result (`none` is `nil`). -/
def IsNotExist : Option GoError → Bool
  | some (.fs .notExist) => true
  | _ => false

/-! ## File system -/

/-- What `os.Lstat` and `readDirNames` find at a path.
`file` is every entry whose `IsDir()` is false; a `dir` carries the result of
`readDirNames`: an error, or the names (in the sorted order `readDirNames`
returns them) each with what is found below; `missing` is a path whose
`Lstat` fails. -/
inductive FsNode where
  | file
  | dir (readErr : Option FsErr) (entries : List (String × FsNode))
  | missing (err : FsErr)
  deriving Repr

/-- The `os.FileInfo` of an entry, as far as the code looks at it. -/
structure FileInfo where
  isDir : Bool
  deriving DecidableEq, Repr

/-- The method `info.IsDir()`.  `Walk` passes a nil `info` only together with
a non-nil error, and both callbacks return before they look at `info` then. -/
def IsDir : Option FileInfo → Bool
  | some i => i.isDir
  | none => false

/-- The state of the file system as the code reads it: the error result of
`os.Stat(path)` and what `filepath.Walk` meets when started at `path`. -/
structure FileSystem where
  Stat : String → Option GoError
  Lstat : String → FsNode

/-! ## `path/filepath` -/

/-- Splits on the separator `'/'`. -/
def splitSep : List Char → List (List Char)
  | [] => [[]]
  | c :: cs =>
    if c = '/' then [] :: splitSep cs
    else match splitSep cs with
      | [] => [[c]]
      | w :: ws => (c :: w) :: ws

/-- One path element processed by `Clean`; `acc` holds the elements kept so
far, last one first. -/
def cleanStep (rooted : Bool) (acc : List (List Char)) (c : List Char) : List (List Char) :=
  if c = [] ∨ c = ['.'] then acc
  else if c = ['.', '.'] then
    match acc with
    | [] => if rooted then [] else [c]
    | top :: rest => if top = ['.', '.'] then c :: acc else rest
  else c :: acc

/-- Joins path elements with `'/'`. -/
def joinSep : List (List Char) → List Char
  | [] => []
  | [w] => w
  | w :: ws => w ++ '/' :: joinSep ws

/-- The function `filepath.Clean` (Unix): multiple separators become one, `.` elements are
dropped, `..` removes the element before it, the empty path is `.`. -/
def Clean (path : String) : String :=
  let rooted := path.data.head? = some '/'
  let kept := ((splitSep path.data).foldl (cleanStep rooted) []).reverse
  let out := (if rooted then ['/'] else []) ++ joinSep kept
  if out = [] then "." else String.mk out

/-- The function `filepath.Join` on two elements: leading empty elements are ignored, the
rest is joined with the separator and cleaned. -/
def Join (a b : String) : String :=
  if a ≠ "" then Clean (a ++ "/" ++ b)
  else if b ≠ "" then Clean b
  else ""

/-- The backwards scan of `filepath.Ext`: `rev` is what is left of the path,
last character first, `acc` the characters already passed. -/
def extScan : List Char → List Char → List Char
  | [], _ => []
  | c :: rev, acc =>
    if c = '/' then []
    else if c = '.' then '.' :: acc
    else extScan rev (c :: acc)

/-- The function `filepath.Ext`: the suffix beginning at the final dot in the final element
of the path, empty if there is no dot. -/
def Ext (path : String) : String :=
  String.mk (extScan path.data.reverse [])

/-- The type `filepath.WalkFunc`, with the variables the closure captures
passed as a state. -/
abbrev WalkFunc (σ : Type) := String → Option FileInfo → Option GoError → σ → σ × Option GoError

/-- Whether `Lstat` reported a directory. -/
def FsNode.isDir : FsNode → Bool
  | .dir _ _ => true
  | _ => false

mutual
/-- The function `walk` of `path/filepath`.  For a `missing` node, whose
`Lstat` failed, it is the call `walkFn(path, nil, err)` that `Walk` and the
loop of `walk` make in place of the recursive call. -/
def walk {σ : Type} (fn : WalkFunc σ) (path : String) : FsNode → σ → σ × Option GoError
  | .file, s => fn path (some ⟨false⟩) none s
  | .missing e, s => fn path none (some (.fs e)) s
  | .dir readErr entries, s =>
    let err := readErr.map GoError.fs
    let r := fn path (some ⟨true⟩) err s
    if err.isSome || r.2.isSome then r
    else walkNames fn path entries r.1
/-- The loop `for _, name := range names` of `walk`. -/
def walkNames {σ : Type} (fn : WalkFunc σ) (path : String) :
    List (String × FsNode) → σ → σ × Option GoError
  | [], s => (s, none)
  | (name, node) :: rest, s =>
    let filename := Join path name
    let r := walk fn filename node s
    let stop :=
      match node with
      | .missing _ => r.2.isSome && r.2 != some .SkipDir
      | _ => r.2.isSome && (!node.isDir || r.2 != some .SkipDir)
    if stop then r else walkNames fn path rest r.1
end

/-- The function `filepath.Walk`. -/
def Walk {σ : Type} (fs : FileSystem) (root : String) (fn : WalkFunc σ) (s : σ) :
    σ × Option GoError :=
  let r := walk fn root (fs.Lstat root) s
  if r.2 = some .SkipDir ∨ r.2 = some .SkipAll then (r.1, none) else r

/-! ## The walk sequence -/

/-- One call of the walk callback: its three arguments (the error, when there
is one, is an error of the file system). -/
structure Visit where
  path : String
  info : Option FileInfo
  err : Option FsErr
  deriving DecidableEq, Repr

mutual
/-- The pre-order walk sequence of the tree at `path`: every entry in the
order of a depth-first scan that takes the names of a directory in the order
`readDirNames` lists them.  A directory that cannot be read has no entries
below it. -/
def visits (path : String) : FsNode → List Visit
  | .file => [⟨path, some ⟨false⟩, none⟩]
  | .missing e => [⟨path, none, some e⟩]
  | .dir readErr entries =>
    ⟨path, some ⟨true⟩, readErr⟩ ::
      (if readErr.isSome then [] else visitsNames path entries)
/-- The walk sequence of the entries of the directory `path`. -/
def visitsNames (path : String) : List (String × FsNode) → List Visit
  | [] => []
  | (name, node) :: rest => visits (Join path name) node ++ visitsNames path rest
end

/-- An entry of the walk sequence that was met without error and is a directory. -/
def Visit.isDirectory (v : Visit) : Bool :=
  v.err.isNone && IsDir v.info

/-- Runs the callback over a walk sequence, stopping at the first error. -/
def runVisits {σ : Type} (fn : WalkFunc σ) : List Visit → σ → σ × Option GoError
  | [], s => (s, none)
  | v :: vs, s =>
    let r := fn v.path v.info (v.err.map GoError.fs) s
    if r.2.isSome then r else runVisits fn vs r.1

/-! ## Go maps -/

/-- A `map[string]string`: the entries, with no key twice. -/
abbrev GoMap := List (String × String)

/-- The assignment `m[k] = v`. -/
def GoMap.set : GoMap → String → String → GoMap
  | [], k, v => [(k, v)]
  | (k', v') :: rest, k, v =>
    if k' = k then (k, v) :: rest else (k', v') :: GoMap.set rest k v

/-- The entries of a map in the order a `range` loop yields them.  Go leaves
the order unspecified; `seed` selects one of the arrangements of the entries. -/
def GoMap.range (seed : Nat) (m : GoMap) : List (String × String) :=
  (m.permutations'.get? (seed % m.permutations'.length)).getD m

/-! ## `create/create.go` -/

/-- The functions of the package `path` that `create.go` calls.  The package
is not part of the sources at hand, so they are taken as they come. -/
structure PathPkg where
  SunplateImport : String → String
  AbsoluteImport : String → String
  SunplateDir : String → String
  PackageDir : String → String
  Prefixless : String → String → String

/-- The type `command.Data`, of which `start` uses the method `Default`. -/
structure Data where
  Default : String → String → String

/-- What `start` does to the world, in the order it does it. -/
inductive Effect where
  | warn (err : GoError)
  | createDir (path : String)
  | copyFile (src dst : String)
  | copyModifiedFile (src dst : String) (rules : GoMap)
  | info (newImport : String)
  deriving DecidableEq, Repr

/-- The effects that change the file system. -/
def Effect.mutates : Effect → Bool
  | .createDir _ => true
  | .copyFile _ _ => true
  | .copyModifiedFile _ _ _ => true
  | _ => false

/-- The type `result`: keys are full paths, values are relative ones. -/
structure result where
  dirs : GoMap
  files : GoMap
  srcs : GoMap
  deriving DecidableEq, Repr

/-- The function `walkFunc`: the fresh `result` and the callback.  The state
of the callback is the `result` it fills and the lines it has logged. -/
def walkFunc (p : PathPkg) (dir : String) : result × WalkFunc (result × List Effect) :=
  (⟨[], [], []⟩, fun path info err st =>
    let rs := st.1
    match err with
    | some e => ((rs, st.2 ++ [Effect.warn e]), err)
    | none =>
      let relPath := p.Prefixless path dir
      if IsDir info then
        (({ rs with dirs := rs.dirs.set path relPath }, st.2), err)
      else if Ext path = ".go" then
        (({ rs with srcs := rs.srcs.set path relPath }, st.2), err)
      else
        (({ rs with files := rs.files.set path relPath }, st.2), err))

/-- The seeds of the three `range` loops of `start`. -/
structure MapOrder where
  dirs : Nat
  files : Nat
  srcs : Nat

/-- How a run of `start` ends: the effects in order, and the panic if it ended in one. -/
structure Run where
  effects : List Effect
  panic : Option String
  deriving DecidableEq, Repr

/-- The function `start`.  The calls of `CreateDir`, `copyFile` and
`copyModifiedFile` are recorded as effects, each taken to return; the result
of `filepath.Walk` is dropped, as in the source. -/
def start (p : PathPkg) (fs : FileSystem) (ord : MapOrder) (action : String) (params : Data) : Run :=
  let oldImport := p.SunplateImport "skeleton"
  let newImport := p.AbsoluteImport (params.Default action "./")
  let inputDir := p.SunplateDir "skeleton"
  let outputDir := p.PackageDir newImport
  if !IsNotExist (fs.Stat outputDir) then
    ⟨[], some ("Abort: Import path \"" ++ newImport ++ "\" already exists.")⟩
  else
    let w := walkFunc p inputDir
    let st := (Walk fs inputDir w.2 (w.1, [])).1
    let rs := st.1
    let e1 := (rs.dirs.range ord.dirs).map fun kv => Effect.createDir (Join outputDir kv.2)
    let e2 := (rs.files.range ord.files).map fun kv => Effect.copyFile kv.1 (Join outputDir kv.2)
    let e3 := (rs.srcs.range ord.srcs).map fun kv =>
      Effect.copyModifiedFile kv.1 (Join outputDir kv.2) [(oldImport, newImport)]
    ⟨st.2 ++ e1 ++ e2 ++ e3 ++ [Effect.info newImport], none⟩

/-! ## `internal/watcher/watcher.go` -/

/-- The callback `glob` hands to `filepath.Walk`; its state is `ds`. -/
def globFunc : WalkFunc (List String) := fun path info err ds =>
  if err.isSome then (ds, err)
  else if IsDir info then (ds ++ [path], none)
  else (ds, some (.new "not a directory"))

/-- The function `glob`. -/
def glob (fs : FileSystem) (pattern : String) : List String :=
  let l := pattern.length
  if l = 0 ∨ pattern.data.getLast? ≠ some '*' then
    [] ++ [pattern]
  else
    let pattern := String.mk pattern.data.dropLast
    (Walk fs pattern globFunc []).1

/-- The type `fsnotify.Op`, a set of bits. -/
abbrev Op := Nat

/-- The operation `fsnotify.Create`. -/
def Create : Op := 1 <<< 0
/-- The operation `fsnotify.Write`. -/
def Write : Op := 1 <<< 1
/-- The operation `fsnotify.Remove`. -/
def Remove : Op := 1 <<< 2
/-- The operation `fsnotify.Rename`. -/
def Rename : Op := 1 <<< 3
/-- The operation `fsnotify.Chmod`. -/
def Chmod : Op := 1 <<< 4

/-- The type `fsnotify.Event`. -/
structure Event where
  Name : String
  Op : Op
  deriving DecidableEq, Repr

/-- The function `restartRequired`. -/
def restartRequired (event : Event) : Bool :=
  if event.Op &&& Write = Write then true else false

/-- What a monitoring task receives in one round of its `select`. -/
inductive Msg where
  | event (ev : Event)
  | error (err : String)
  deriving DecidableEq, Repr

/-- What a monitoring task does, in order.  `call ev` is the call `fn()`
made for the event `ev`. -/
inductive Action where
  | lock
  | call (ev : Event)
  | unlock
  | warn (err : String)
  deriving DecidableEq, Repr

/-- One round of the loop of `NotifyOnUpdate`, for a callback `fn` that
returns: `s` is the state `fn` works on. -/
def notifyRound {σ : Type} (fn : σ → σ) (st : σ × List Action) : Msg → σ × List Action
  | .event ev =>
    if restartRequired ev then
      (fn st.1, st.2 ++ [Action.lock, Action.call ev, Action.unlock])
    else st
  | .error err => (st.1, st.2 ++ [Action.warn err])

/-- The method `NotifyOnUpdate` on the messages `msgs`, received in this order. -/
def NotifyOnUpdate {σ : Type} (fn : σ → σ) (msgs : List Msg) (s : σ) : σ × List Action :=
  msgs.foldl (notifyRound fn) (s, [])

/-- The events for which a task called `fn`, in the order of the calls. -/
def calledFor : List Action → List Event
  | [] => []
  | .call ev :: rest => ev :: calledFor rest
  | _ :: rest => calledFor rest

/-- Where a monitoring task stands in `NotifyOnUpdate`: waiting in `select`,
at `t.mu.Lock()`, inside `fn()`, or at `t.mu.Unlock()`. -/
inductive Pc where
  | select
  | atLock
  | inFn
  | atUnlock
  deriving DecidableEq, Repr

/-- One watcher `Type` with the monitoring tasks started on it: the mutex
`mu` (true when held) and the place of every task. -/
structure Watcher where
  mu : Bool
  tasks : List Pc
  deriving DecidableEq, Repr

/-- The function `NewType`: the mutex is free, no task runs. -/
def NewType : Watcher := ⟨false, []⟩

/-- What can happen next: a call of `Listen` reaches `go t.NotifyOnUpdate`,
task `i` receives a message in its `select`, or task `i` takes its next step. -/
inductive Sched where
  | listen
  | deliver (i : Nat) (m : Msg)
  | advance (i : Nat)
  deriving DecidableEq, Repr

/-- One step of the tasks of a watcher.  A step that is not possible (no such
task, a task not waiting, `Lock` on a held mutex) leaves the state as it is. -/
def step (w : Watcher) : Sched → Watcher
  | .listen => { w with tasks := w.tasks ++ [Pc.select] }
  | .deliver i m =>
    match w.tasks.get? i, m with
    | some .select, .event ev =>
      if restartRequired ev then { w with tasks := w.tasks.set i Pc.atLock } else w
    | _, _ => w
  | .advance i =>
    match w.tasks.get? i with
    | some .atLock => if w.mu then w else ⟨true, w.tasks.set i Pc.inFn⟩
    | some .inFn => { w with tasks := w.tasks.set i Pc.atUnlock }
    | some .atUnlock => ⟨false, w.tasks.set i Pc.select⟩
    | _ => w

/-- The tasks that are inside the callback. -/
def Watcher.running (w : Watcher) : Nat :=
  w.tasks.count Pc.inFn

/-- What a call of `Listen` meets outside the sources at hand: the error
result of `fsnotify.NewWatcher`, whether `log.AssertNil(err)` returns, and the
error result of the `i`-th call `w.Add(dir)`. -/
structure Notify where
  NewWatcher : Option GoError
  AssertNil : Option GoError → Bool
  Add : Nat → String → Option GoError

/-- What `Listen` does, in order: the trace line for a directory, the call
`w.Add` for it, the warning for a failed `w.Add`, and the start of the
monitoring task (`go t.NotifyOnUpdate(w, fn)`). -/
inductive ListenEffect where
  | trace (dir : String)
  | add (dir : String)
  | warn (err : GoError)
  | go
  deriving DecidableEq, Repr

/-- How a call of `Listen` ends. -/
structure ListenRun where
  effects : List ListenEffect
  panic : Option String
  deriving DecidableEq, Repr

/-- The loop `for i := range ds` of `Listen`, from index `i` on. -/
def registerAll (n : Notify) : Nat → List String → List ListenEffect
  | _, [] => []
  | i, d :: ds =>
    ListenEffect.trace d :: ListenEffect.add d ::
      ((match n.Add i d with
        | some err => [ListenEffect.warn err]
        | none => []) ++ registerAll n (i + 1) ds)

/-- The method `Listen`. -/
def Listen (n : Notify) (fs : FileSystem) (pattern : String) : ListenRun :=
  let err := n.NewWatcher
  if !n.AssertNil err then ⟨[], some "log.AssertNil"⟩
  else
    let ds := glob fs pattern
    if err.isSome then ⟨[], some ("Pattern " ++ pattern ++ " is malformed.")⟩
    else ⟨registerAll n 0 ds ++ [ListenEffect.go], none⟩

/-! ## `utils/tool/tool.go` -/

/-- The function `strings.Count` for a separator that is not empty, scanning
`s`: `skip` is the number of characters still covered by the last match. -/
def strings.countFrom (sep : List Char) : List Char → Nat → Nat
  | [], _ => 0
  | _ :: cs, skip + 1 => strings.countFrom sep cs skip
  | c :: cs, 0 =>
    if sep.isPrefixOf (c :: cs) then 1 + strings.countFrom sep cs (sep.length - 1)
    else strings.countFrom sep cs 0

/-- The function `strings.Count`: the number of non-overlapping instances of
`sep` in `s`; for the empty `sep`, one more than the number of characters. -/
def strings.Count (s sep : String) : Nat :=
  if sep.data = [] then s.data.length + 1 else strings.countFrom sep.data s.data 0

/-- The elements joined with `sep` between them, as characters. -/
def strings.joinChars (sep : List Char) : List (List Char) → List Char
  | [] => []
  | [w] => w
  | w :: ws => w ++ sep ++ strings.joinChars sep ws

/-- The function `strings.Join`. -/
def strings.Join (elems : List String) (sep : String) : String :=
  String.mk (strings.joinChars sep.data (elems.map String.data))

/-- The constant `commandWordSep`. -/
def tool.commandWordSep : String := " "

/-- The type `tool.Data`. -/
abbrev tool.Data := List String

/-- The type `flag.FlagSet`, as far as `Run` uses it: what `Parse(lst)`
returns, an error or, on success, the arguments `Args()` holds afterwards. -/
structure tool.FlagSet where
  Parse : List String → Except String (List String)

/-- The type `Handler`.  The entry function `Run` is not a field here: a call
of it is recorded in the outcome of `Context.Run`. -/
structure tool.Handler where
  Default : Bool
  Name : String
  Usage : String
  Info : String
  Desc : String
  Flags : tool.FlagSet

/-- A call `c.list[i].Run(hs, i, args)` of the entry function of a handler. -/
structure tool.Started where
  hs : List tool.Handler
  i : Nat
  args : tool.Data

/-- The type `Context`. -/
structure tool.Context where
  list : List tool.Handler
  defaultH : Option Nat

/-- The loop of `NewContext` from index `i` on: the index of the first
handler with `Default` set. -/
def tool.findDefault : List tool.Handler → Nat → Option Nat
  | [], _ => none
  | h :: hs, i => if h.Default then some i else tool.findDefault hs (i + 1)

/-- The function `NewContext`. -/
def tool.NewContext (handlers : List tool.Handler) : tool.Context :=
  ⟨handlers, tool.findDefault handlers 0⟩

/-- The method `Requested`; the nil slice is the empty list. -/
def tool.Handler.Requested (h : tool.Handler) (args : List String) : List String × Bool :=
  let num := strings.Count h.Name tool.commandWordSep + 1
  if args.length < num then ([], false)
  else if h.Name ≠ strings.Join (args.take num) tool.commandWordSep then ([], false)
  else (args.drop num, true)

/-- How a call of `Context.Run` ends: the entry functions it started, the
error it returned, and the panic if it ended in one. -/
structure tool.Outcome where
  started : List tool.Started
  err : Option String
  panic : Option String

/-- The loop of `Run` over the handlers, `rest` being the handlers from index
`i` on. -/
def tool.runFrom (list : List tool.Handler) (args : List String) :
    List tool.Handler → Nat → tool.Outcome
  | [], _ =>
    ⟨[], some ("unknown command \"" ++ strings.Join args tool.commandWordSep ++ "\""), none⟩
  | h :: rest, i =>
    match h.Requested args with
    | (lst, true) =>
      match h.Flags.Parse lst with
      | .error err => ⟨[], some err, none⟩
      | .ok nonFlag => ⟨[⟨list, i, nonFlag⟩], none, none⟩
    | (_, false) => tool.runFrom list args rest (i + 1)

/-- The method `Run`. -/
def tool.Context.Run (c : tool.Context) (args : List String) : tool.Outcome :=
  if args.length = 0 then
    match c.defaultH with
    | some d =>
      if d < c.list.length then ⟨[⟨c.list, d, args⟩], none, none⟩
      else ⟨[], none, some "index out of range"⟩
    | none => ⟨[], some "no command specified", none⟩
  else tool.runFrom c.list args c.list 0

/-- The method `GetDefault`.  Indexing a slice outside its bounds panics. -/
def tool.Data.GetDefault (a : tool.Data) (i : Int) (defaultVal : String) : Except String String :=
  if i ≥ (a.length : Int) then .ok defaultVal
  else
    match i with
    | .ofNat k =>
      match a.get? k with
      | some v => .ok v
      | none => .error "index out of range"
    | .negSucc _ => .error "index out of range"

/-! ## The template and what becomes of it -/

/-- The import path `oldImport` of `start`. -/
def oldImport (p : PathPkg) : String :=
  p.SunplateImport "skeleton"

/-- The import path `newImport` of `start`. -/
def newImport (p : PathPkg) (action : String) (params : Data) : String :=
  p.AbsoluteImport (params.Default action "./")

/-- The directory `inputDir` of `start`. -/
def inputDir (p : PathPkg) : String :=
  p.SunplateDir "skeleton"

/-- The directory `outputDir` of `start`. -/
def outputDir (p : PathPkg) (action : String) (params : Data) : String :=
  p.PackageDir (newImport p action params)

/-- The walk sequence of the template tree. -/
def template (p : PathPkg) (fs : FileSystem) : List Visit :=
  visits (inputDir p) (fs.Lstat (inputDir p))

/-- The error result of the walk `start` makes over the template. -/
def walkError (p : PathPkg) (fs : FileSystem) : Option GoError :=
  (Walk fs (inputDir p) (walkFunc p (inputDir p)).2 ((walkFunc p (inputDir p)).1, [])).2

/-- The entries of a walk sequence before its first error. -/
def beforeError (vs : List Visit) : List Visit :=
  vs.takeWhile fun v => v.err.isNone

/-- The three kinds of entries. -/
inductive Kind where
  | directory
  | source
  | static
  deriving DecidableEq, Repr

/-- The kind of an entry: a directory, whatever its name; else a source file
if its extension is `.go`; else a static file. -/
def Visit.kind (v : Visit) : Kind :=
  if IsDir v.info then Kind.directory
  else if Ext v.path = ".go" then Kind.source
  else Kind.static

/-- The destination of an entry: the output directory joined with the path of
the entry relative to the template root. -/
def destination (p : PathPkg) (action : String) (params : Data) (v : Visit) : String :=
  Join (outputDir p action params) (p.Prefixless v.path (inputDir p))

/-- The operation that materialises an entry, by its kind. -/
def materialise (p : PathPkg) (action : String) (params : Data) (v : Visit) : Effect :=
  match v.kind with
  | .directory => Effect.createDir (destination p action params v)
  | .static => Effect.copyFile v.path (destination p action params v)
  | .source =>
    Effect.copyModifiedFile v.path (destination p action params v)
      [(oldImport p, newImport p action params)]

/-- The paths `CreateDir` is called with, in the order of the calls. -/
def createDirCalls : List Effect → List String
  | [] => []
  | .createDir path :: rest => path :: createDirCalls rest
  | _ :: rest => createDirCalls rest

/-- The write events of a sequence of messages: the events whose operation
has the `Write` bit (bit 1) set, in the order received. -/
def writeEvents : List Msg → List Event
  | [] => []
  | .event ev :: rest =>
    if ev.Op.testBit 1 then ev :: writeEvents rest else writeEvents rest
  | .error _ :: rest => writeEvents rest

/-! ## Auxiliary notions -/

/-- A callback that never answers with the sentinel `SkipDir`. -/
def NoSkip {σ : Type} (fn : WalkFunc σ) : Prop :=
  ∀ path info (err : Option FsErr) s, (fn path info (err.map GoError.fs) s).2 ≠ some GoError.SkipDir

/-- The assignment the callback of `walkFunc` makes for an entry met without error. -/
def record (p : PathPkg) (dir : String) (rs : result) (v : Visit) : result :=
  match v.kind with
  | .directory => { rs with dirs := rs.dirs.set v.path (p.Prefixless v.path dir) }
  | .source => { rs with srcs := rs.srcs.set v.path (p.Prefixless v.path dir) }
  | .static => { rs with files := rs.files.set v.path (p.Prefixless v.path dir) }

/-- The entry a visit leaves in its map. -/
def entryOf (p : PathPkg) (dir : String) (v : Visit) : String × String :=
  (v.path, p.Prefixless v.path dir)

/-- The entries of kind `k` among `vs`, as map entries, in walk order. -/
def entriesOf (p : PathPkg) (dir : String) (k : Kind) (vs : List Visit) : List (String × String) :=
  (vs.filter fun v => v.kind = k).map (entryOf p dir)

/-- The mutex is held exactly when one task is between `Lock` and `Unlock`. -/
def Watcher.Inv (w : Watcher) : Prop :=
  w.tasks.count Pc.inFn + w.tasks.count Pc.atUnlock = if w.mu then 1 else 0

/-! ## Runs with failing calls, registrations, command words -/

/-- Modelled from the spec: `CreateDir`, `copyFile` and `copyModifiedFile` are
not among the sources and have no error result, so a call of them that fails
ends the run at once, and what was done before stays as it is (the spec's
`IOFailure`, propagated immediately, with no rollback).  `fails` tells of a
call whether it fails; the result is the effects up to and including the
first failing call, and whether there was one. -/
def cutAtFailure (fails : Effect → Bool) : List Effect → List Effect × Bool
  | [] => ([], false)
  | e :: es =>
    if e.mutates && fails e then ([e], true)
    else ((e :: (cutAtFailure fails es).1), (cutAtFailure fails es).2)

/-- A run of `start` in which the create and copy calls picked out by `fails`
fail. -/
def startWithFailures (fails : Effect → Bool) (p : PathPkg) (fs : FileSystem) (ord : MapOrder)
    (action : String) (params : Data) : Run :=
  match (start p fs ord action params).panic with
  | some msg => ⟨(start p fs ord action params).effects, some msg⟩
  | none =>
    ⟨(cutAtFailure fails (start p fs ord action params).effects).1,
      if (cutAtFailure fails (start p fs ord action params).effects).2 then
        some "create or copy failed"
      else none⟩

/-- The directories `Listen` tried to register, in the order of the calls of `w.Add`. -/
def attempted : List ListenEffect → List String
  | [] => []
  | .add dir :: rest => dir :: attempted rest
  | _ :: rest => attempted rest

/-- The number of spaces in a string. -/
def spaces (s : String) : Nat :=
  s.data.count ' '

/-- Splits on single spaces. -/
def splitSpaces : List Char → List (List Char)
  | [] => [[]]
  | c :: cs =>
    if c = ' ' then [] :: splitSpaces cs
    else match splitSpaces cs with
      | [] => [[c]]
      | w :: ws => (c :: w) :: ws

/-- The words of a command name: what splitting it on single spaces gives. -/
def words (s : String) : List String :=
  (splitSpaces s.data).map String.mk

/-! ## Sample inputs -/

/-- A tree of two branches below `foo/`: `a` holds a plain file, `b` comes
after it in scan order. -/
def twoBranches : FileSystem where
  Stat := fun _ => none
  Lstat := fun path =>
    if path = "foo/" then
      .dir none [("a", .dir none [("f", .file), ("z", .dir none [])]), ("b", .dir none [])]
    else .missing .notExist

/-- A burst of messages: a write, a create, the same write again, an error,
a write combined with chmod, a rename. -/
def burst : List Msg :=
  [.event ⟨"a.go", Write⟩, .event ⟨"b.go", Create⟩, .event ⟨"a.go", Write⟩, .error "overflow",
    .event ⟨"c.go", Write ||| Chmod⟩, .event ⟨"a.go", Rename⟩]

/-- Two tasks on one watcher that both receive a write event and both go for
the lock; the first gets it and runs the callback, then the second does. -/
def twoTasks : List Sched :=
  [.listen, .listen, .deliver 0 (.event ⟨"a.go", Write⟩), .deliver 1 (.event ⟨"b.go", Write⟩),
    .advance 0, .advance 1, .advance 0, .advance 1, .advance 0, .advance 1]

/-- A stand-in for the package `path`. -/
def samplePath : PathPkg where
  SunplateImport := fun s => "sunplate/" ++ s
  AbsoluteImport := fun s => "acme/" ++ s
  SunplateDir := fun s => "/sunplate/" ++ s
  PackageDir := fun s => "/src/" ++ s
  Prefixless := fun path dir => String.mk (path.data.drop dir.length)

/-- Parameters that name the application `widget`. -/
def sampleParams : Data where
  Default := fun _ _ => "widget"

/-- A skeleton of two directories, a static file and a source file; nothing
else exists. -/
def skeletonFs : FileSystem where
  Stat := fun _ => some (.fs .notExist)
  Lstat := fun path =>
    if path = "/sunplate/skeleton" then
      .dir none [("README.md", .file), ("assets", .dir none []),
        ("controllers", .dir none [("init.go", .file)])]
    else .missing .notExist

/-- The skeleton, with the output directory already there. -/
def occupiedFs : FileSystem where
  Stat := fun _ => none
  Lstat := skeletonFs.Lstat

/-- A skeleton in which one entry cannot be read. -/
def brokenFs : FileSystem where
  Stat := fun _ => some (.fs .notExist)
  Lstat := fun path =>
    if path = "/sunplate/skeleton" then
      .dir none [("assets", .dir none []), ("broken", .missing (.other "input/output error")),
        ("controllers", .dir none [("init.go", .file)])]
    else .missing .notExist

/-- A watcher whose first registration fails and whose other registrations succeed. -/
def flakyNotify : Notify where
  NewWatcher := none
  AssertNil := fun err => err.isNone
  Add := fun i _ => if i = 0 then some (.fs (.other "no space left on device")) else none

/-- A file system in which `gone/` does not exist. -/
def goneFs : FileSystem where
  Stat := fun _ => some (.fs .notExist)
  Lstat := fun _ => .missing .notExist

/-- The name of the flag in an argument: the argument without its one or two
leading dashes, up to the first `=` that is not its first character. -/
def flagName (s : String) : List Char :=
  let name := if (s.data.drop 1).head? = some '-' then s.data.drop 2 else s.data.drop 1
  match name with
  | [] => []
  | c :: cs => c :: cs.takeWhile fun x => x ≠ '='

/-- A flag set in which no flag is defined and which returns its errors: an
argument that looks like a flag is an error, anything else ends the flags. -/
def noFlags : tool.FlagSet where
  Parse := fun args =>
    match args with
    | [] => .ok []
    | s :: rest =>
      if s.length < 2 ∨ s.data.head? ≠ some '-' then .ok (s :: rest)
      else if s = "--" then .ok rest
      else if flagName s = [] ∨ (flagName s).head? = some '-' ∨ (flagName s).head? = some '=' then
        .error ("bad flag syntax: " ++ s)
      else if flagName s = "help".data ∨ flagName s = "h".data then
        .error "flag: help requested"
      else .error ("flag provided but not defined: -" ++ String.mk (flagName s))

/-- The handler of the command `new`. -/
def newHandler : tool.Handler :=
  ⟨false, "new", "new {path}", "create a skeleton application", "", noFlags⟩

/-- The handler of the command `run`, the default one. -/
def runHandler : tool.Handler :=
  ⟨true, "run", "run [path]", "run a watcher", "", noFlags⟩

/-- The handler of the command `generate stuff`, a second default one. -/
def generateHandler : tool.Handler :=
  ⟨true, "generate stuff", "generate stuff", "generate things", "", noFlags⟩

/-! ## The walk and its sequence -/

theorem runVisits_append {σ : Type} (fn : WalkFunc σ) (xs ys : List Visit) (s : σ) :
    runVisits fn (xs ++ ys) s =
      if (runVisits fn xs s).2.isSome then runVisits fn xs s
      else runVisits fn ys (runVisits fn xs s).1 := by
  induction xs generalizing s with
  | nil => simp [runVisits]
  | cons v vs ih =>
    simp only [List.cons_append, runVisits]
    by_cases h : (fn v.path v.info (v.err.map GoError.fs) s).2.isSome
    · simp [h]
    · simp only [h, Bool.false_eq_true, if_false]
      exact ih _

theorem runVisits_single {σ : Type} (fn : WalkFunc σ) (v : Visit) (s : σ) :
    runVisits fn [v] s = fn v.path v.info (v.err.map GoError.fs) s := by
  simp only [runVisits]
  split
  · rfl
  · next h =>
    have h2 : (fn v.path v.info (v.err.map GoError.fs) s).2 = none := by simpa using h
    exact Prod.ext rfl h2.symm

theorem runVisits_ne_skip {σ : Type} (fn : WalkFunc σ) (hfn : NoSkip fn) (vs : List Visit)
    (s : σ) : (runVisits fn vs s).2 ≠ some GoError.SkipDir := by
  induction vs generalizing s with
  | nil => simp [runVisits]
  | cons v vs ih =>
    simp only [runVisits]
    split
    · exact hfn _ _ _ _
    · exact ih _

mutual
theorem walk_eq_runVisits {σ : Type} (fn : WalkFunc σ) (hfn : NoSkip fn) :
    ∀ (node : FsNode) (path : String) (s : σ),
      walk fn path node s = runVisits fn (visits path node) s
  | .file, path, s => by
    rw [visits, runVisits_single]; rfl
  | .missing e, path, s => by
    rw [visits, runVisits_single]; rfl
  | .dir readErr entries, path, s => by
    rw [visits, walk]
    cases readErr with
    | some e =>
      simp only [Option.map_some', Option.isSome_some, Bool.true_or, if_true]
      exact (runVisits_single fn ⟨path, some ⟨true⟩, some e⟩ s).symm
    | none =>
      simp only [Option.map_none', Option.isSome_none, Bool.false_or, Bool.false_eq_true,
        if_false, runVisits]
      split
      · rfl
      · exact walkNames_eq_runVisits fn hfn entries path _
theorem walkNames_eq_runVisits {σ : Type} (fn : WalkFunc σ) (hfn : NoSkip fn) :
    ∀ (entries : List (String × FsNode)) (path : String) (s : σ),
      walkNames fn path entries s = runVisits fn (visitsNames path entries) s
  | [], path, s => by
    rw [visitsNames, walkNames]; rfl
  | (name, node) :: rest, path, s => by
    have ih1 := walk_eq_runVisits fn hfn node (Join path name) s
    have ih2 := walkNames_eq_runVisits fn hfn rest path
    have hne : ((walk fn (Join path name) node s).2 != some GoError.SkipDir) = true := by
      have h := runVisits_ne_skip fn hfn (visits (Join path name) node) s
      rw [← ih1] at h
      simpa using h
    rw [visitsNames, runVisits_append, ← ih1, ← ih2]
    cases node <;> simp [walkNames, hne, FsNode.isDir]
end

/-! ## `glob` -/

theorem globFunc_noSkip : NoSkip globFunc := by
  intro path info err s
  cases err with
  | some e => simp [globFunc]
  | none =>
    simp only [globFunc, Option.map_none', Option.isSome_none, Bool.false_eq_true, if_false]
    split <;> simp

theorem runVisits_globFunc (vs : List Visit) (ds : List String) :
    (runVisits globFunc vs ds).1 = ds ++ (vs.takeWhile Visit.isDirectory).map Visit.path := by
  induction vs generalizing ds with
  | nil => simp [runVisits]
  | cons v vs ih =>
    obtain ⟨path, info, err⟩ := v
    cases err with
    | some e => simp [runVisits, globFunc, Visit.isDirectory, List.takeWhile]
    | none =>
      by_cases hd : IsDir info = true
      · simp [runVisits, globFunc, Visit.isDirectory, List.takeWhile, hd, ih]
      · simp [runVisits, globFunc, Visit.isDirectory, List.takeWhile, hd]

theorem Walk_fst {σ : Type} (fs : FileSystem) (root : String) (fn : WalkFunc σ) (s : σ) :
    (Walk fs root fn s).1 = (walk fn root (fs.Lstat root) s).1 := by
  simp only [Walk]
  split <;> rfl

theorem glob_of_star (fs : FileSystem) (pattern : String)
    (h : pattern.data.getLast? = some '*') :
    glob fs pattern =
      ((visits (String.mk pattern.data.dropLast)
        (fs.Lstat (String.mk pattern.data.dropLast))).takeWhile Visit.isDirectory).map
        Visit.path := by
  have hl : pattern.length ≠ 0 := by
    intro h0
    have : pattern.data = [] := List.length_eq_zero.mp h0
    rw [this] at h
    simp at h
  unfold glob
  simp only [hl, h, ne_eq, not_true_eq_false, or_self, if_false]
  rw [Walk_fst, walk_eq_runVisits _ globFunc_noSkip, runVisits_globFunc]
  simp

theorem takeWhile_prefix_of_stop {α : Type} (p : α → Bool) (pre post : List α) (v : α)
    (hv : p v = false) : (pre ++ v :: post).takeWhile p = pre.takeWhile p := by
  induction pre with
  | nil => simp [List.takeWhile, hv]
  | cons a pre ih =>
    by_cases ha : p a = true
    · simp [List.takeWhile, ha, ih]
    · simp [List.takeWhile, ha]

theorem takeWhile_all {α : Type} (p : α → Bool) (l : List α) (h : ∀ a ∈ l, p a = true) :
    l.takeWhile p = l := by
  induction l with
  | nil => rfl
  | cons a l ih =>
    have ha : p a = true := h a (List.mem_cons_self _ _)
    simp only [List.takeWhile, ha]
    rw [ih (fun b hb => h b (List.mem_cons_of_mem _ hb))]

/-- C4: for a pattern that is empty or does not end in `'*'`, `glob` returns
the one-element list holding the pattern itself, whatever the state of the
file system: the result is the same for any two file systems. -/
theorem glob_literal (fs : FileSystem) (pattern : String)
    (h : pattern = "" ∨ pattern.data.getLast? ≠ some '*') :
    glob fs pattern = [pattern] ∧ ∀ fs' : FileSystem, glob fs' pattern = glob fs pattern := by
  have key : ∀ g : FileSystem, glob g pattern = [pattern] := by
    intro g
    unfold glob
    rcases h with h | h
    · subst h; rfl
    · simp [h]
  exact ⟨key fs, fun g => (key g).trans (key fs).symm⟩

theorem glob_literal_witness :
    ("foo" = "" ∨ "foo".data.getLast? ≠ some '*') ∧
      (glob twoBranches "foo" = ["foo"] ∧
        ∀ fs' : FileSystem, glob fs' "foo" = glob twoBranches "foo") :=
  ⟨Or.inr (by decide), glob_literal twoBranches "foo" (Or.inr (by decide))⟩

/-- C5: for a pattern ending in `'*'`, `glob` returns the paths of the longest
prefix of the pre-order walk sequence, rooted at the pattern without its
`'*'`, that consists of directories only.  So nothing that the walk meets
after the first entry that is not a directory is returned, in whichever
branch it lies; and when every entry is a directory the result is the whole
sequence, one path for each entry. -/
theorem glob_recursive (fs : FileSystem) (pattern : String)
    (h : pattern.data.getLast? = some '*') :
    glob fs pattern =
        ((visits (String.mk pattern.data.dropLast)
          (fs.Lstat (String.mk pattern.data.dropLast))).takeWhile Visit.isDirectory).map
          Visit.path ∧
      (∀ pre v post,
        visits (String.mk pattern.data.dropLast) (fs.Lstat (String.mk pattern.data.dropLast)) =
            pre ++ v :: post →
          v.isDirectory = false → glob fs pattern <+: pre.map Visit.path) ∧
      ((∀ v ∈ visits (String.mk pattern.data.dropLast)
            (fs.Lstat (String.mk pattern.data.dropLast)), v.isDirectory = true) →
        glob fs pattern =
            (visits (String.mk pattern.data.dropLast)
              (fs.Lstat (String.mk pattern.data.dropLast))).map Visit.path ∧
          (glob fs pattern).length =
            (visits (String.mk pattern.data.dropLast)
              (fs.Lstat (String.mk pattern.data.dropLast))).length) := by
  refine ⟨glob_of_star fs pattern h, ?_, ?_⟩
  · intro pre v post hseq hv
    rw [glob_of_star fs pattern h, hseq, takeWhile_prefix_of_stop _ _ _ _ hv]
    exact (List.takeWhile_prefix _).map _
  · intro hall
    rw [glob_of_star fs pattern h, takeWhile_all _ _ hall]
    simp

theorem glob_recursive_witness :
    "foo/*".data.getLast? = some '*' ∧
      glob twoBranches "foo/*" =
        ((visits "foo/" (twoBranches.Lstat "foo/")).takeWhile Visit.isDirectory).map
          Visit.path :=
  ⟨by decide, (glob_recursive twoBranches "foo/*" (by decide)).1⟩

/-- C6 does not hold of the code: below `foo/` the plain file `a/f` makes the
callback return an error, which ends the whole walk and not only the branch
`a`.  The directory `b`, in a sibling branch later in scan order, is a
directory of the tree and is not returned, where the claim, and the comment
on `glob` (the names of all directories, scanned recursively), have it
returned.  The root comes back as it is handed to the walk, `foo/`. -/
theorem glob_sibling_branch_lost :
    (⟨"foo/b", some ⟨true⟩, none⟩ : Visit) ∈ visits "foo/" (twoBranches.Lstat "foo/") ∧
      glob twoBranches "foo/*" = ["foo/", "foo/a"] ∧
      "foo/b" ∉ glob twoBranches "foo/*" := by
  decide

/-! ## The monitoring task -/

theorem restartRequired_eq_testBit (ev : Event) : restartRequired ev = ev.Op.testBit 1 := by
  have h := Nat.and_two_pow ev.Op 1
  have hw : Write = 2 ^ 1 := by decide
  unfold restartRequired
  rw [hw, h]
  cases ev.Op.testBit 1 <;> simp

theorem calledFor_append (xs ys : List Action) :
    calledFor (xs ++ ys) = calledFor xs ++ calledFor ys := by
  induction xs with
  | nil => rfl
  | cons a xs ih => cases a <;> simp [calledFor, ih]

theorem notify_foldl {σ : Type} (fn : σ → σ) (msgs : List Msg) (s : σ) (tr : List Action) :
    calledFor (msgs.foldl (notifyRound fn) (s, tr)).2 = calledFor tr ++ writeEvents msgs ∧
      (msgs.foldl (notifyRound fn) (s, tr)).1 = fn^[(writeEvents msgs).length] s := by
  induction msgs generalizing s tr with
  | nil => simp [writeEvents]
  | cons m msgs ih =>
    cases m with
    | error err =>
      simp only [List.foldl_cons, notifyRound, writeEvents]
      obtain ⟨h1, h2⟩ := ih s (tr ++ [Action.warn err])
      exact ⟨by rw [h1, calledFor_append]; simp [calledFor], h2⟩
    | event ev =>
      simp only [List.foldl_cons, notifyRound, writeEvents, restartRequired_eq_testBit]
      cases hb : ev.Op.testBit 1
      · simpa using ih s tr
      · simp only [if_true]
        obtain ⟨h1, h2⟩ := ih (fn s) (tr ++ [Action.lock, Action.call ev, Action.unlock])
        refine ⟨?_, ?_⟩
        · rw [h1, calledFor_append]; simp [calledFor]
        · rw [h2]; simp [Function.iterate_succ_apply]

/-- C7: on every finite sequence of messages, a monitoring task calls the
callback once for each event whose operation has the `Write` bit set, alone
or with other bits, in the order of the events, and for no other event:
operations without the bit (create, remove, rename, chmod) call nothing, and
repeated write events each get their call. -/
theorem notify_calls_per_write {σ : Type} (fn : σ → σ) (msgs : List Msg) (s : σ) :
    calledFor (NotifyOnUpdate fn msgs s).2 = writeEvents msgs ∧
      (NotifyOnUpdate fn msgs s).1 = fn^[(writeEvents msgs).length] s ∧
      (∀ name, restartRequired ⟨name, Create⟩ = false ∧ restartRequired ⟨name, Remove⟩ = false ∧
        restartRequired ⟨name, Rename⟩ = false ∧ restartRequired ⟨name, Chmod⟩ = false) ∧
      (∀ name op, restartRequired ⟨name, op ||| Write⟩ = true) := by
  refine ⟨?_, ?_, ?_, ?_⟩
  · simpa [calledFor] using (notify_foldl fn msgs s []).1
  · exact (notify_foldl fn msgs s []).2
  · intro name
    simp only [restartRequired_eq_testBit]
    decide
  · intro name op
    rw [restartRequired_eq_testBit]
    have hw : Write = 2 ^ 1 := by decide
    simp only [hw, Nat.testBit_or, Nat.testBit_two_pow_self, Bool.or_true]

theorem notify_calls_per_write_witness :
    calledFor (NotifyOnUpdate (fun n : Nat => n + 1) burst 0).2 =
        [⟨"a.go", Write⟩, ⟨"a.go", Write⟩, ⟨"c.go", Write ||| Chmod⟩] ∧
      (NotifyOnUpdate (fun n : Nat => n + 1) burst 0).1 = 3 := by
  have h := notify_calls_per_write (fun n : Nat => n + 1) burst 0
  refine ⟨h.1.trans (by decide), h.2.1.trans (by decide)⟩

/-! ## Tasks of one watcher -/

theorem count_set_of_get {l : List Pc} {i : Nat} {a : Pc} (h : l.get? i = some a) (b c : Pc) :
    (l.set i b).count c + (if a = c then 1 else 0) = l.count c + (if b = c then 1 else 0) := by
  induction l generalizing i with
  | nil => simp at h
  | cons x l ih =>
    cases i with
    | zero =>
      simp only [List.get?_cons_zero, Option.some.injEq] at h
      subst h
      simp only [List.set_cons_zero, List.count_cons, beq_iff_eq]
      omega
    | succ i =>
      simp only [List.get?_cons_succ] at h
      have := ih h
      simp only [List.set_cons_succ, List.count_cons, beq_iff_eq]
      omega

theorem step_inv (w : Watcher) (a : Sched) (h : w.Inv) : (step w a).Inv := by
  cases a with
  | listen =>
    simp only [step, Watcher.Inv, List.count_append] at h ⊢
    simpa using h
  | deliver i m =>
    simp only [step]
    split
    · next ev hg =>
      split
      · have h1 := count_set_of_get hg Pc.atLock Pc.inFn
        have h2 := count_set_of_get hg Pc.atLock Pc.atUnlock
        simp only [Watcher.Inv] at h ⊢
        simp at h1 h2
        omega
      · exact h
    · exact h
  | advance i =>
    simp only [step]
    split
    · next hg =>
      split
      · exact h
      · next hmu =>
        have h1 := count_set_of_get hg Pc.inFn Pc.inFn
        have h2 := count_set_of_get hg Pc.inFn Pc.atUnlock
        simp only [Watcher.Inv] at h ⊢
        simp at h1 h2
        simp [hmu] at h
        simp
        omega
    · next hg =>
      have h1 := count_set_of_get hg Pc.atUnlock Pc.inFn
      have h2 := count_set_of_get hg Pc.atUnlock Pc.atUnlock
      simp only [Watcher.Inv] at h ⊢
      simp at h1 h2
      omega
    · next hg =>
      have h1 := count_set_of_get hg Pc.select Pc.inFn
      have h2 := count_set_of_get hg Pc.select Pc.atUnlock
      simp only [Watcher.Inv] at h ⊢
      simp at h1 h2
      have hpos : 0 < List.count Pc.atUnlock w.tasks :=
        List.count_pos_iff.mpr (List.get?_mem hg)
      split at h
      · simp
        omega
      · omega
    · exact h

theorem foldl_step_inv (sched : List Sched) (w : Watcher) (h : w.Inv) :
    (sched.foldl step w).Inv := by
  induction sched generalizing w with
  | nil => exact h
  | cons a sched ih => exact ih _ (step_inv w a h)

theorem index_unique_of_count_le_one {l : List Pc} {a : Pc} (h : l.count a ≤ 1) :
    ∀ i j, l.get? i = some a → l.get? j = some a → i = j := by
  induction l with
  | nil => intro i j hi; simp at hi
  | cons x l ih =>
    intro i j hi hj
    have hmem : ∀ k, l.get? k = some a → 0 < l.count a := fun k hk =>
      List.count_pos_iff.mpr (List.get?_mem hk)
    simp only [List.count_cons, beq_iff_eq] at h
    cases i with
    | zero =>
      cases j with
      | zero => rfl
      | succ j =>
        simp only [List.get?_cons_zero, Option.some.injEq] at hi
        simp only [List.get?_cons_succ] at hj
        have := hmem j hj
        simp [hi] at h
        omega
    | succ i =>
      simp only [List.get?_cons_succ] at hi
      cases j with
      | zero =>
        simp only [List.get?_cons_zero, Option.some.injEq] at hj
        have := hmem i hi
        simp [hj] at h
        omega
      | succ j =>
        simp only [List.get?_cons_succ] at hj
        have hl : l.count a ≤ 1 := by omega
        rw [ih hl i j hi hj]

/-- C8: on one watcher, however many `Listen` calls started tasks on it and in
whatever order the tasks take their steps, at most one task is inside the
callback at any moment: two tasks that are inside `fn()` are the same task,
and a task is inside it only while the mutex is held. -/
theorem callbacks_never_overlap (sched : List Sched) :
    (sched.foldl step NewType).running ≤ 1 ∧
      (∀ i j, (sched.foldl step NewType).tasks.get? i = some Pc.inFn →
        (sched.foldl step NewType).tasks.get? j = some Pc.inFn → i = j) ∧
      (0 < (sched.foldl step NewType).running → (sched.foldl step NewType).mu = true) := by
  have hinv : (sched.foldl step NewType).Inv :=
    foldl_step_inv sched NewType (by simp [Watcher.Inv, NewType])
  have hle : (sched.foldl step NewType).running ≤ 1 := by
    simp only [Watcher.Inv] at hinv
    simp only [Watcher.running]
    split at hinv <;> omega
  refine ⟨hle, index_unique_of_count_le_one hle, ?_⟩
  intro hpos
  simp only [Watcher.Inv] at hinv
  simp only [Watcher.running] at hpos
  cases hmu : (sched.foldl step NewType).mu
  · simp [hmu] at hinv; omega
  · rfl

theorem callbacks_never_overlap_witness :
    (twoTasks.foldl step NewType) = ⟨true, [Pc.select, Pc.inFn]⟩ ∧
      (twoTasks.foldl step NewType).running ≤ 1 :=
  ⟨by decide, (callbacks_never_overlap twoTasks).1⟩

/-! ## Go maps -/

theorem GoMap.set_of_not_mem (m : GoMap) (k v : String) (h : k ∉ m.map Prod.fst) :
    GoMap.set m k v = m ++ [(k, v)] := by
  induction m with
  | nil => rfl
  | cons kv m ih =>
    obtain ⟨k', v'⟩ := kv
    simp only [List.map_cons, List.mem_cons, not_or] at h
    have hne : ¬k' = k := fun hk => h.1 hk.symm
    simp only [GoMap.set, hne, if_false, List.cons_append]
    rw [ih h.2]

theorem GoMap.lookup_set (m : GoMap) (k v : String) : (GoMap.set m k v).lookup k = some v := by
  induction m with
  | nil => simp [GoMap.set, List.lookup]
  | cons kv m ih =>
    obtain ⟨k', v'⟩ := kv
    by_cases hk : k' = k
    · simp [GoMap.set, hk, List.lookup]
    · have hb : (k == k') = false := by
        simpa using fun h : k = k' => hk h.symm
      simp only [GoMap.set, hk, if_false, List.lookup, hb]
      exact ih

theorem permutations'_ne_nil {α : Type} (l : List α) : 0 < l.permutations'.length := by
  have h : l ∈ l.permutations' := List.mem_permutations'.mpr (List.Perm.refl l)
  exact List.length_pos_of_mem h

theorem GoMap.range_perm (seed : Nat) (m : GoMap) : (GoMap.range seed m).Perm m := by
  unfold GoMap.range
  have hlt : seed % m.permutations'.length < m.permutations'.length :=
    Nat.mod_lt _ (permutations'_ne_nil m)
  cases hg : m.permutations'.get? (seed % m.permutations'.length) with
  | none =>
    rw [List.get?_eq_none] at hg
    omega
  | some l =>
    simp only [Option.getD_some]
    exact List.mem_permutations'.mp (List.get?_mem hg)

theorem GoMap.range_any (m : GoMap) (l : List (String × String)) (h : l.Perm m) :
    ∃ seed, GoMap.range seed m = l := by
  have hmem : l ∈ m.permutations' := List.mem_permutations'.mpr h
  obtain ⟨n, hn⟩ := List.get?_of_mem hmem
  have hlt : n < m.permutations'.length := by
    by_contra hc
    rw [List.get?_eq_none.mpr (by omega)] at hn
    cases hn
  refine ⟨n, ?_⟩
  unfold GoMap.range
  rw [Nat.mod_eq_of_lt hlt, hn]
  rfl

/-! ## The walk of `start` -/

theorem walkFunc_ok (p : PathPkg) (dir path : String) (info : Option FileInfo)
    (st : result × List Effect) :
    (walkFunc p dir).2 path info none st = ((record p dir st.1 ⟨path, info, none⟩, st.2), none) := by
  simp only [walkFunc, record, Visit.kind]
  by_cases hd : IsDir info = true
  · simp [hd]
  · by_cases he : Ext path = ".go"
    · simp [hd, he]
    · simp [hd, he]

theorem walkFunc_err (p : PathPkg) (dir path : String) (info : Option FileInfo) (e : GoError)
    (st : result × List Effect) :
    (walkFunc p dir).2 path info (some e) st = ((st.1, st.2 ++ [Effect.warn e]), some e) := by
  simp [walkFunc]

theorem walkFunc_noSkip (p : PathPkg) (dir : String) : NoSkip (walkFunc p dir).2 := by
  intro path info err s
  cases err with
  | some e => simp [walkFunc_err]
  | none => simp [walkFunc_ok]

theorem runVisits_walkFunc_rs (p : PathPkg) (dir : String) (vs : List Visit)
    (st : result × List Effect) :
    (runVisits (walkFunc p dir).2 vs st).1.1 = (beforeError vs).foldl (record p dir) st.1 := by
  induction vs generalizing st with
  | nil => rfl
  | cons v vs ih =>
    obtain ⟨path, info, err⟩ := v
    cases err with
    | some e => simp [runVisits, walkFunc_err, beforeError, List.takeWhile]
    | none =>
      simp only [runVisits, Option.map_none', walkFunc_ok, Option.isSome_none, Bool.false_eq_true,
        if_false, beforeError, List.takeWhile, Option.isNone_none, List.foldl_cons]
      rw [ih]
      rfl

theorem runVisits_walkFunc_log (p : PathPkg) (dir : String) (vs : List Visit)
    (st : result × List Effect) :
    ∃ ws, (runVisits (walkFunc p dir).2 vs st).1.2 = st.2 ++ ws ∧
      (∀ w ∈ ws, ∃ e, w = Effect.warn e) ∧
      ((runVisits (walkFunc p dir).2 vs st).2 = none → ws = []) := by
  induction vs generalizing st with
  | nil => exact ⟨[], by simp [runVisits]⟩
  | cons v vs ih =>
    obtain ⟨path, info, err⟩ := v
    cases err with
    | some e =>
      refine ⟨[Effect.warn (GoError.fs e)], ?_⟩
      simp [runVisits, walkFunc_err]
    | none =>
      simp only [runVisits, Option.map_none', walkFunc_ok, Option.isSome_none, Bool.false_eq_true,
        if_false]
      exact ih _

theorem runVisits_walkFunc_none (p : PathPkg) (dir : String) (vs : List Visit)
    (st : result × List Effect) :
    (runVisits (walkFunc p dir).2 vs st).2 = none ↔ ∀ v ∈ vs, v.err = none := by
  induction vs generalizing st with
  | nil => simp [runVisits]
  | cons v vs ih =>
    obtain ⟨path, info, err⟩ := v
    cases err with
    | some e => simp [runVisits, walkFunc_err]
    | none =>
      simp only [runVisits, Option.map_none', walkFunc_ok, Option.isSome_none, Bool.false_eq_true,
        if_false, List.mem_cons, forall_eq_or_imp, true_and]
      exact ih _

theorem runVisits_walkFunc_ne_skipAll (p : PathPkg) (dir : String) (vs : List Visit)
    (st : result × List Effect) :
    (runVisits (walkFunc p dir).2 vs st).2 ≠ some GoError.SkipAll := by
  induction vs generalizing st with
  | nil => simp [runVisits]
  | cons v vs ih =>
    obtain ⟨path, info, err⟩ := v
    cases err with
    | some e => simp [runVisits, walkFunc_err]
    | none =>
      simp only [runVisits, Option.map_none', walkFunc_ok, Option.isSome_none,
        Bool.false_eq_true, if_false]
      exact ih _

theorem Walk_walkFunc (p : PathPkg) (fs : FileSystem) (dir : String)
    (st : result × List Effect) :
    Walk fs dir (walkFunc p dir).2 st =
      runVisits (walkFunc p dir).2 (visits dir (fs.Lstat dir)) st := by
  have hw := walk_eq_runVisits _ (walkFunc_noSkip p dir) (fs.Lstat dir) dir st
  have h1 := runVisits_ne_skip _ (walkFunc_noSkip p dir) (visits dir (fs.Lstat dir)) st
  have h2 := runVisits_walkFunc_ne_skipAll p dir (visits dir (fs.Lstat dir)) st
  simp only [Walk, hw]
  rw [if_neg]
  exact fun h => h.elim h1 h2

theorem entriesOf_keys (p : PathPkg) (dir : String) (k : Kind) (vs : List Visit) (key : String)
    (h : key ∈ (entriesOf p dir k vs).map Prod.fst) : key ∈ vs.map Visit.path := by
  simp only [entriesOf, List.map_map, List.mem_map, List.mem_filter, Function.comp,
    entryOf] at h
  obtain ⟨v, ⟨hv, _⟩, rfl⟩ := h
  exact List.mem_map_of_mem _ hv

theorem entriesOf_append_same (p : PathPkg) (dir : String) (k : Kind) (vs : List Visit)
    (v : Visit) (h : v.kind = k) :
    entriesOf p dir k (vs ++ [v]) = entriesOf p dir k vs ++ [entryOf p dir v] := by
  simp [entriesOf, List.filter_append, List.filter, h]

theorem entriesOf_append_other (p : PathPkg) (dir : String) (k : Kind) (vs : List Visit)
    (v : Visit) (h : v.kind ≠ k) :
    entriesOf p dir k (vs ++ [v]) = entriesOf p dir k vs := by
  simp [entriesOf, List.filter_append, List.filter, h]

theorem foldl_record (p : PathPkg) (dir : String) (vs : List Visit)
    (hnd : (vs.map Visit.path).Nodup) :
    vs.foldl (record p dir) ⟨[], [], []⟩ =
      ⟨entriesOf p dir Kind.directory vs, entriesOf p dir Kind.static vs,
        entriesOf p dir Kind.source vs⟩ := by
  induction vs using List.reverseRecOn with
  | nil => rfl
  | append_singleton vs v ih =>
    rw [List.map_append, List.nodup_append] at hnd
    obtain ⟨hvs, _, hdis⟩ := hnd
    have hfresh : ∀ k, v.path ∉ (entriesOf p dir k vs).map Prod.fst := by
      intro k hk
      exact hdis (entriesOf_keys p dir k vs _ hk) (by simp)
    rw [List.foldl_append, ih hvs]
    simp only [List.foldl_cons, List.foldl_nil, record]
    cases hk : v.kind with
    | directory =>
      simp only [GoMap.set_of_not_mem _ _ _ (hfresh _)]
      rw [entriesOf_append_same p dir _ vs v hk, entriesOf_append_other p dir _ vs v (by simp [hk]),
        entriesOf_append_other p dir _ vs v (by simp [hk])]
      rfl
    | source =>
      simp only [GoMap.set_of_not_mem _ _ _ (hfresh _)]
      rw [entriesOf_append_same p dir _ vs v hk, entriesOf_append_other p dir _ vs v (by simp [hk]),
        entriesOf_append_other p dir _ vs v (by simp [hk])]
      rfl
    | static =>
      simp only [GoMap.set_of_not_mem _ _ _ (hfresh _)]
      rw [entriesOf_append_same p dir _ vs v hk, entriesOf_append_other p dir _ vs v (by simp [hk]),
        entriesOf_append_other p dir _ vs v (by simp [hk])]
      rfl

/-! ## `start` -/

theorem beforeError_nodup (vs : List Visit) (h : (vs.map Visit.path).Nodup) :
    ((beforeError vs).map Visit.path).Nodup :=
  h.sublist ((List.takeWhile_sublist _).map _)

theorem beforeError_of_ok (vs : List Visit) (h : ∀ v ∈ vs, v.err = none) : beforeError vs = vs :=
  takeWhile_all _ _ (fun v hv => by simp [h v hv])

theorem walkError_eq (p : PathPkg) (fs : FileSystem) :
    walkError p fs = (runVisits (walkFunc p (inputDir p)).2 (template p fs) (⟨[], [], []⟩, [])).2 := by
  unfold walkError template
  rw [Walk_walkFunc]
  rfl

theorem start_effects (p : PathPkg) (fs : FileSystem) (ord : MapOrder) (action : String)
    (params : Data) (hnew : IsNotExist (fs.Stat (outputDir p action params)) = true)
    (hnd : ((template p fs).map Visit.path).Nodup) :
    ∃ ws, (∀ w ∈ ws, ∃ e, w = Effect.warn e) ∧ (walkError p fs = none → ws = []) ∧
      start p fs ord action params =
        ⟨ws ++
          (GoMap.range ord.dirs
            (entriesOf p (inputDir p) Kind.directory (beforeError (template p fs)))).map
            (fun kv => Effect.createDir (Join (outputDir p action params) kv.2)) ++
          (GoMap.range ord.files
            (entriesOf p (inputDir p) Kind.static (beforeError (template p fs)))).map
            (fun kv => Effect.copyFile kv.1 (Join (outputDir p action params) kv.2)) ++
          (GoMap.range ord.srcs
            (entriesOf p (inputDir p) Kind.source (beforeError (template p fs)))).map
            (fun kv => Effect.copyModifiedFile kv.1 (Join (outputDir p action params) kv.2)
              [(oldImport p, newImport p action params)]) ++
          [Effect.info (newImport p action params)], none⟩ := by
  obtain ⟨ws, hws, hwarn, hnone⟩ :=
    runVisits_walkFunc_log p (inputDir p) (template p fs) (⟨[], [], []⟩, [])
  have hrs := runVisits_walkFunc_rs p (inputDir p) (template p fs) (⟨[], [], []⟩, [])
  rw [foldl_record p (inputDir p) _ (beforeError_nodup _ hnd)] at hrs
  refine ⟨ws, hwarn, ?_, ?_⟩
  · intro h
    rw [walkError_eq] at h
    exact hnone h
  · have hnew2 : IsNotExist (fs.Stat (p.PackageDir (p.AbsoluteImport (params.Default action "./"))))
        = true := hnew
    have hW : Walk fs (p.SunplateDir "skeleton") (walkFunc p (p.SunplateDir "skeleton")).2
        ((walkFunc p (p.SunplateDir "skeleton")).1, []) =
        runVisits (walkFunc p (inputDir p)).2 (template p fs) (⟨[], [], []⟩, []) :=
      Walk_walkFunc p fs (inputDir p) _
    simp only [start, hnew2, Bool.not_true, Bool.false_eq_true, if_false, hW, hrs, hws,
      List.nil_append]
    rfl

theorem kinds_perm (vs : List Visit) :
    (vs.filter (fun v => v.kind = Kind.directory) ++ vs.filter (fun v => v.kind = Kind.static) ++
      vs.filter (fun v => v.kind = Kind.source)).Perm vs := by
  induction vs with
  | nil => simp
  | cons v vs ih =>
    cases hk : v.kind with
    | directory =>
      simp only [List.filter, hk, decide_True, List.cons_append]
      simpa using ih
    | static =>
      simp only [List.filter, hk, decide_True, List.cons_append]
      have : (List.filter (fun v => decide (v.kind = Kind.directory)) vs ++
          v :: List.filter (fun v => decide (v.kind = Kind.static)) vs ++
          List.filter (fun v => decide (v.kind = Kind.source)) vs).Perm
          (v :: (List.filter (fun v => decide (v.kind = Kind.directory)) vs ++
          List.filter (fun v => decide (v.kind = Kind.static)) vs ++
          List.filter (fun v => decide (v.kind = Kind.source)) vs)) := by
        simp only [List.append_assoc, List.cons_append]
        exact List.perm_middle
      simpa using this.trans (List.Perm.cons v ih)
    | source =>
      simp only [List.filter, hk, decide_True]
      have : (List.filter (fun v => decide (v.kind = Kind.directory)) vs ++
          List.filter (fun v => decide (v.kind = Kind.static)) vs ++
          v :: List.filter (fun v => decide (v.kind = Kind.source)) vs).Perm
          (v :: (List.filter (fun v => decide (v.kind = Kind.directory)) vs ++
          List.filter (fun v => decide (v.kind = Kind.static)) vs ++
          List.filter (fun v => decide (v.kind = Kind.source)) vs)) :=
        List.perm_middle
      simpa using this.trans (List.Perm.cons v ih)

theorem map_directory (p : PathPkg) (action : String) (params : Data) (vs : List Visit) :
    (entriesOf p (inputDir p) Kind.directory vs).map
        (fun kv => Effect.createDir (Join (outputDir p action params) kv.2)) =
      (vs.filter fun v => v.kind = Kind.directory).map (materialise p action params) := by
  simp only [entriesOf, List.map_map]
  apply List.map_congr_left
  intro v hv
  have hk : v.kind = Kind.directory := by simpa using (List.mem_filter.mp hv).2
  simp [materialise, hk, entryOf, destination]

theorem map_static (p : PathPkg) (action : String) (params : Data) (vs : List Visit) :
    (entriesOf p (inputDir p) Kind.static vs).map
        (fun kv => Effect.copyFile kv.1 (Join (outputDir p action params) kv.2)) =
      (vs.filter fun v => v.kind = Kind.static).map (materialise p action params) := by
  simp only [entriesOf, List.map_map]
  apply List.map_congr_left
  intro v hv
  have hk : v.kind = Kind.static := by simpa using (List.mem_filter.mp hv).2
  simp [materialise, hk, entryOf, destination]

theorem map_source (p : PathPkg) (action : String) (params : Data) (vs : List Visit) :
    (entriesOf p (inputDir p) Kind.source vs).map
        (fun kv => Effect.copyModifiedFile kv.1 (Join (outputDir p action params) kv.2)
          [(oldImport p, newImport p action params)]) =
      (vs.filter fun v => v.kind = Kind.source).map (materialise p action params) := by
  simp only [entriesOf, List.map_map]
  apply List.map_congr_left
  intro v hv
  have hk : v.kind = Kind.source := by simpa using (List.mem_filter.mp hv).2
  simp [materialise, hk, entryOf, destination]

theorem materialise_mutates (p : PathPkg) (action : String) (params : Data) (v : Visit) :
    (materialise p action params v).mutates = true := by
  unfold materialise
  cases v.kind <;> rfl

theorem filter_mutates_of_perm (p : PathPkg) (action : String) (params : Data)
    (es : List Effect) (vs : List Visit) (h : es.Perm (vs.map (materialise p action params))) :
    es.filter Effect.mutates = es := by
  rw [List.filter_eq_self]
  intro e he
  obtain ⟨v, _, rfl⟩ := List.mem_map.mp (h.subset he)
  exact materialise_mutates p action params v

theorem filter_mutates_warns (ws : List Effect) (h : ∀ w ∈ ws, ∃ e, w = Effect.warn e) :
    ws.filter Effect.mutates = [] := by
  rw [List.filter_eq_nil_iff]
  intro w hw
  obtain ⟨e, rfl⟩ := h w hw
  simp [Effect.mutates]

theorem createDirCalls_append (xs ys : List Effect) :
    createDirCalls (xs ++ ys) = createDirCalls xs ++ createDirCalls ys := by
  induction xs with
  | nil => rfl
  | cons a xs ih => cases a <;> simp [createDirCalls, ih]

theorem createDirCalls_warns (ws : List Effect) (h : ∀ w ∈ ws, ∃ e, w = Effect.warn e) :
    createDirCalls ws = [] := by
  induction ws with
  | nil => rfl
  | cons w ws ih =>
    obtain ⟨e, rfl⟩ := h _ (List.mem_cons_self _ _)
    simp only [createDirCalls]
    exact ih fun w hw => h w (List.mem_cons_of_mem _ hw)

theorem createDirCalls_createDir (l : List (String × String)) (f : String × String → String) :
    createDirCalls (l.map fun kv => Effect.createDir (f kv)) = l.map f := by
  induction l with
  | nil => rfl
  | cons a l ih => simp [createDirCalls, ih]

theorem createDirCalls_copyFile (l : List (String × String)) (f g : String × String → String) :
    createDirCalls (l.map fun kv => Effect.copyFile (f kv) (g kv)) = [] := by
  induction l with
  | nil => rfl
  | cons a l ih => simp [createDirCalls, ih]

theorem createDirCalls_copyModifiedFile (l : List (String × String))
    (f g : String × String → String) (r : GoMap) :
    createDirCalls (l.map fun kv => Effect.copyModifiedFile (f kv) (g kv) r) = [] := by
  induction l with
  | nil => rfl
  | cons a l ih => simp [createDirCalls, ih]

theorem exists_first_error (vs : List Visit) (h : ¬∀ v ∈ vs, v.err = none) :
    ∃ pre v post, vs = pre ++ v :: post ∧ v.err ≠ none ∧ beforeError vs = pre ∧
      ∀ u ∈ pre, u.err = none := by
  induction vs with
  | nil => simp at h
  | cons a vs ih =>
    cases ha : a.err with
    | some e =>
      refine ⟨[], a, vs, rfl, by simp [ha], ?_, by simp⟩
      simp [beforeError, List.takeWhile, ha]
    | none =>
      have h2 : ¬∀ v ∈ vs, v.err = none := by
        intro hall
        apply h
        intro v hv
        rcases List.mem_cons.mp hv with rfl | hv
        · exact ha
        · exact hall v hv
      obtain ⟨pre, v, post, hvs, hv, hb, hpre⟩ := ih h2
      refine ⟨a :: pre, v, post, by rw [hvs]; rfl, hv, ?_, ?_⟩
      · simp only [beforeError, List.takeWhile, ha, Option.isNone_none]
        exact congrArg _ hb
      · intro u hu
        rcases List.mem_cons.mp hu with rfl | hu
        · exact ha
        · exact hpre u hu

/-- C1: when `os.Stat` of the output directory does not answer "does not
exist" (so whenever the directory is there), `start` stops with a panic at
the check and has done nothing: no directory created, no file copied, nothing
logged; and the template is not walked, for the run is the same whatever is
found at the template. -/
theorem start_refuses_existing (p : PathPkg) (fs : FileSystem) (ord : MapOrder)
    (action : String) (params : Data)
    (h : IsNotExist (fs.Stat (outputDir p action params)) = false) :
    (start p fs ord action params).panic.isSome = true ∧
      (start p fs ord action params).effects = [] ∧
      ∀ (lstat : String → FsNode) (ord' : MapOrder),
        start p ⟨fs.Stat, lstat⟩ ord' action params = start p fs ord action params := by
  have h2 : IsNotExist (fs.Stat (p.PackageDir (p.AbsoluteImport (params.Default action "./"))))
      = false := h
  refine ⟨?_, ?_, ?_⟩
  · simp [start, h2]
  · simp [start, h2]
  · intro lstat ord'
    simp [start, h2]

theorem start_refuses_existing_witness :
    IsNotExist (occupiedFs.Stat (outputDir samplePath "new" sampleParams)) = false ∧
      (start samplePath occupiedFs ⟨0, 0, 0⟩ "new" sampleParams).panic.isSome = true ∧
      (start samplePath occupiedFs ⟨0, 0, 0⟩ "new" sampleParams).effects = [] :=
  ⟨by decide,
    (start_refuses_existing samplePath occupiedFs ⟨0, 0, 0⟩ "new" sampleParams (by decide)).1,
    (start_refuses_existing samplePath occupiedFs ⟨0, 0, 0⟩ "new" sampleParams (by decide)).2.1⟩

/-- C2: when the output directory does not exist and the template is walked
without error, `start` ends without panic and its calls are: a `CreateDir`
for each directory, then a `copyFile` for each file that is not a `.go` file,
then a `copyModifiedFile` with the one rule `oldImport -> newImport` for each
`.go` file, each group in some order, then the notice.  Every entry of the
template is materialised exactly once, at the output directory joined with
its relative path, and nothing else is written. -/
theorem start_materialises (p : PathPkg) (fs : FileSystem) (ord : MapOrder) (action : String)
    (params : Data) (hnew : IsNotExist (fs.Stat (outputDir p action params)) = true)
    (hwalk : walkError p fs = none) (hnd : ((template p fs).map Visit.path).Nodup) :
    (start p fs ord action params).panic = none ∧
      ((start p fs ord action params).effects.filter Effect.mutates).Perm
        ((template p fs).map (materialise p action params)) ∧
      ∃ ds fl ss,
        (start p fs ord action params).effects =
          ds ++ fl ++ ss ++ [Effect.info (newImport p action params)] ∧
        ds.Perm (((template p fs).filter fun v => v.kind = Kind.directory).map
          (materialise p action params)) ∧
        fl.Perm (((template p fs).filter fun v => v.kind = Kind.static).map
          (materialise p action params)) ∧
        ss.Perm (((template p fs).filter fun v => v.kind = Kind.source).map
          (materialise p action params)) := by
  obtain ⟨ws, _, hnone, hstart⟩ := start_effects p fs ord action params hnew hnd
  have hws : ws = [] := hnone hwalk
  have hok : ∀ v ∈ template p fs, v.err = none := by
    rw [walkError_eq] at hwalk
    exact (runVisits_walkFunc_none p (inputDir p) _ _).mp hwalk
  rw [beforeError_of_ok _ hok] at hstart
  subst hws
  have hd := ((GoMap.range_perm ord.dirs
    (entriesOf p (inputDir p) Kind.directory (template p fs))).map
    (fun kv => Effect.createDir (Join (outputDir p action params) kv.2)))
  have hf := ((GoMap.range_perm ord.files
    (entriesOf p (inputDir p) Kind.static (template p fs))).map
    (fun kv => Effect.copyFile kv.1 (Join (outputDir p action params) kv.2)))
  have hs := ((GoMap.range_perm ord.srcs
    (entriesOf p (inputDir p) Kind.source (template p fs))).map
    (fun kv => Effect.copyModifiedFile kv.1 (Join (outputDir p action params) kv.2)
      [(oldImport p, newImport p action params)]))
  rw [map_directory] at hd
  rw [map_static] at hf
  rw [map_source] at hs
  have hall := ((hd.append hf).append hs).trans
    ((kinds_perm (template p fs)).map (materialise p action params) |> fun h => by
      simpa [List.map_append] using h)
  refine ⟨by rw [hstart], ?_, _, _, _, by rw [hstart]; simp, hd, hf, hs⟩
  rw [hstart]
  simp only [List.nil_append, List.filter_append]
  rw [filter_mutates_of_perm p action params _ _ hd, filter_mutates_of_perm p action params _ _ hf,
    filter_mutates_of_perm p action params _ _ hs]
  simpa [Effect.mutates] using hall

theorem start_materialises_witness :
    IsNotExist (skeletonFs.Stat (outputDir samplePath "new" sampleParams)) = true ∧
      walkError samplePath skeletonFs = none ∧
      ((template samplePath skeletonFs).map Visit.path).Nodup ∧
      ((start samplePath skeletonFs ⟨5, 0, 0⟩ "new" sampleParams).effects.filter
        Effect.mutates).Perm
        ((template samplePath skeletonFs).map (materialise samplePath "new" sampleParams)) :=
  ⟨by decide, by decide, by decide,
    (start_materialises samplePath skeletonFs ⟨5, 0, 0⟩ "new" sampleParams (by decide)
      (by decide) (by decide)).2.1⟩

/-- C3: for an entry the callback of `walkFunc(dir)` receives without error,
the call assigns the full path, with the path relative to `dir` as value, in
exactly one of the three maps and leaves the other two as they are: `dirs`
for a directory, whatever its name; else `srcs` when the extension is `.go`;
else `files`.  It returns no error and logs nothing; the maps start empty. -/
theorem walkFunc_classifies (p : PathPkg) (dir path : String) (i : FileInfo)
    (st : result × List Effect) :
    (walkFunc p dir).1 = ⟨[], [], []⟩ ∧
      ((walkFunc p dir).2 path (some i) none st).2 = none ∧
      ((walkFunc p dir).2 path (some i) none st).1.2 = st.2 ∧
      ((walkFunc p dir).2 path (some i) none st).1.1 =
        (if i.isDir = true then
          { st.1 with dirs := st.1.dirs.set path (p.Prefixless path dir) }
        else if Ext path = ".go" then
          { st.1 with srcs := st.1.srcs.set path (p.Prefixless path dir) }
        else { st.1 with files := st.1.files.set path (p.Prefixless path dir) }) ∧
      (if i.isDir = true then ((walkFunc p dir).2 path (some i) none st).1.1.dirs
        else if Ext path = ".go" then ((walkFunc p dir).2 path (some i) none st).1.1.srcs
        else ((walkFunc p dir).2 path (some i) none st).1.1.files).lookup path =
        some (p.Prefixless path dir) := by
  refine ⟨rfl, ?_, ?_, ?_, ?_⟩
  · simp [walkFunc_ok]
  · simp [walkFunc_ok]
  · simp only [walkFunc_ok, record, Visit.kind, IsDir]
    by_cases hd : i.isDir = true
    · simp [hd]
    · by_cases he : Ext path = ".go"
      · simp [hd, he]
      · simp [hd, he]
  · simp only [walkFunc_ok, record, Visit.kind, IsDir]
    by_cases hd : i.isDir = true
    · simp [hd, GoMap.lookup_set]
    · by_cases he : Ext path = ".go"
      · simp [hd, he, GoMap.lookup_set]
      · simp [hd, he, GoMap.lookup_set]

/-- C9, as stated, fails: with the `range` over `dirs` taking the entries in
another order than the walk found them, `CreateDir` is called for the two
directories below the root before it is called for the root. -/
theorem createDir_child_before_parent :
    createDirCalls (start samplePath skeletonFs ⟨5, 0, 0⟩ "new" sampleParams).effects =
        ["/src/acme/widget/controllers", "/src/acme/widget/assets", "/src/acme/widget"] ∧
      ((beforeError (template samplePath skeletonFs)).filter
          fun v => v.kind = Kind.directory).map (destination samplePath "new" sampleParams) =
        ["/src/acme/widget", "/src/acme/widget/assets", "/src/acme/widget/controllers"] := by
  decide

/-- C9, amended: the directories are materialised in the order the `range`
loop takes the map `dirs`, which is an arrangement of the traversal order and
need not be that order: every directory the walk recorded gets its
`CreateDir` exactly once, and every arrangement of them is the order of the
calls for some run. -/
theorem createDir_calls_arrangement (p : PathPkg) (fs : FileSystem) (ord : MapOrder)
    (action : String) (params : Data)
    (hnew : IsNotExist (fs.Stat (outputDir p action params)) = true)
    (hnd : ((template p fs).map Visit.path).Nodup) :
    (createDirCalls (start p fs ord action params).effects).Perm
        (((beforeError (template p fs)).filter fun v => v.kind = Kind.directory).map
          (destination p action params)) ∧
      ∀ l : List Visit,
        l.Perm ((beforeError (template p fs)).filter fun v => v.kind = Kind.directory) →
        ∃ seed, createDirCalls
          (start p fs ⟨seed, ord.files, ord.srcs⟩ action params).effects =
            l.map (destination p action params) := by
  have hcalls : ∀ o : MapOrder, createDirCalls (start p fs o action params).effects =
      (GoMap.range o.dirs
        (entriesOf p (inputDir p) Kind.directory (beforeError (template p fs)))).map
        (fun kv => Join (outputDir p action params) kv.2) := by
    intro o
    obtain ⟨ws, hwarn, _, hstart⟩ := start_effects p fs o action params hnew hnd
    rw [hstart]
    simp only [createDirCalls_append, createDirCalls_warns ws hwarn, List.nil_append]
    rw [createDirCalls_createDir _ (fun kv => Join (outputDir p action params) kv.2),
      createDirCalls_copyFile _ (fun kv => kv.1)
        (fun kv => Join (outputDir p action params) kv.2),
      createDirCalls_copyModifiedFile _ (fun kv => kv.1)
        (fun kv => Join (outputDir p action params) kv.2)]
    simp [createDirCalls]
  have hdest : ∀ l : List Visit,
      (l.map (entryOf p (inputDir p))).map (fun kv => Join (outputDir p action params) kv.2) =
        l.map (destination p action params) := by
    intro l
    simp [List.map_map, Function.comp, entryOf, destination]
  refine ⟨?_, ?_⟩
  · rw [hcalls ord]
    have h := (GoMap.range_perm ord.dirs
      (entriesOf p (inputDir p) Kind.directory (beforeError (template p fs)))).map
      (fun kv => Join (outputDir p action params) kv.2)
    rw [entriesOf, hdest] at h
    exact h
  · intro l hl
    obtain ⟨seed, hseed⟩ := GoMap.range_any
      (entriesOf p (inputDir p) Kind.directory (beforeError (template p fs)))
      (l.map (entryOf p (inputDir p))) (hl.map _)
    refine ⟨seed, ?_⟩
    rw [hcalls ⟨seed, ord.files, ord.srcs⟩]
    simp only [hseed]
    exact hdest l

theorem createDir_calls_arrangement_witness :
    IsNotExist (skeletonFs.Stat (outputDir samplePath "new" sampleParams)) = true ∧
      ((template samplePath skeletonFs).map Visit.path).Nodup ∧
      (createDirCalls (start samplePath skeletonFs ⟨3, 0, 0⟩ "new" sampleParams).effects).Perm
        (((beforeError (template samplePath skeletonFs)).filter
          fun v => v.kind = Kind.directory).map (destination samplePath "new" sampleParams)) :=
  ⟨by decide, by decide,
    (createDir_calls_arrangement samplePath skeletonFs ⟨3, 0, 0⟩ "new" sampleParams (by decide)
      (by decide)).1⟩

/-- C10, as stated, fails: the walk of this template reports an error at the
entry `broken`, and `start` neither panics nor stops: it creates the two
directories met before the error and prints the notice. -/
theorem start_goes_on_after_walk_error :
    walkError samplePath brokenFs = some (GoError.fs (FsErr.other "input/output error")) ∧
      start samplePath brokenFs ⟨0, 0, 0⟩ "new" sampleParams =
        ⟨[Effect.warn (GoError.fs (FsErr.other "input/output error")),
          Effect.createDir "/src/acme/widget", Effect.createDir "/src/acme/widget/assets",
          Effect.info "acme/widget"], none⟩ := by
  decide

/-- C10, amended: when the walk of the template reports an error at some
entry, the walk ends there, so no entry after it is recorded; `start` does not
pass the error on: it ends without panic, after materialising exactly the
entries met before the failing one and printing the notice. -/
theorem start_after_walk_error (p : PathPkg) (fs : FileSystem) (ord : MapOrder)
    (action : String) (params : Data)
    (hnew : IsNotExist (fs.Stat (outputDir p action params)) = true)
    (hnd : ((template p fs).map Visit.path).Nodup) (herr : walkError p fs ≠ none) :
    (start p fs ord action params).panic = none ∧
      (start p fs ord action params).effects.getLast? =
        some (Effect.info (newImport p action params)) ∧
      ∃ pre v post, template p fs = pre ++ v :: post ∧ v.err ≠ none ∧
        (∀ u ∈ pre, u.err = none) ∧
        ((start p fs ord action params).effects.filter Effect.mutates).Perm
          (pre.map (materialise p action params)) := by
  obtain ⟨ws, hwarn, _, hstart⟩ := start_effects p fs ord action params hnew hnd
  have hbad : ¬∀ v ∈ template p fs, v.err = none := by
    intro hall
    apply herr
    rw [walkError_eq]
    exact (runVisits_walkFunc_none p (inputDir p) _ _).mpr hall
  obtain ⟨pre, v, post, hseq, hv, hpre, hok⟩ := exists_first_error _ hbad
  rw [hpre] at hstart
  have hd := ((GoMap.range_perm ord.dirs (entriesOf p (inputDir p) Kind.directory pre)).map
    (fun kv => Effect.createDir (Join (outputDir p action params) kv.2)))
  have hf := ((GoMap.range_perm ord.files (entriesOf p (inputDir p) Kind.static pre)).map
    (fun kv => Effect.copyFile kv.1 (Join (outputDir p action params) kv.2)))
  have hs := ((GoMap.range_perm ord.srcs (entriesOf p (inputDir p) Kind.source pre)).map
    (fun kv => Effect.copyModifiedFile kv.1 (Join (outputDir p action params) kv.2)
      [(oldImport p, newImport p action params)]))
  rw [map_directory] at hd
  rw [map_static] at hf
  rw [map_source] at hs
  have hall := ((hd.append hf).append hs).trans
    ((kinds_perm pre).map (materialise p action params) |> fun h => by
      simpa [List.map_append] using h)
  refine ⟨by rw [hstart], by rw [hstart]; simp, pre, v, post, hseq, hv, hok, ?_⟩
  rw [hstart]
  simp only [List.filter_append, filter_mutates_warns ws hwarn, List.nil_append]
  rw [filter_mutates_of_perm p action params _ _ hd, filter_mutates_of_perm p action params _ _ hf,
    filter_mutates_of_perm p action params _ _ hs]
  simpa [Effect.mutates] using hall

theorem start_after_walk_error_witness :
    IsNotExist (brokenFs.Stat (outputDir samplePath "new" sampleParams)) = true ∧
      ((template samplePath brokenFs).map Visit.path).Nodup ∧
      walkError samplePath brokenFs ≠ none ∧
      (start samplePath brokenFs ⟨1, 0, 0⟩ "new" sampleParams).panic = none ∧
      (start samplePath brokenFs ⟨1, 0, 0⟩ "new" sampleParams).effects.getLast? =
        some (Effect.info (newImport samplePath "new" sampleParams)) :=
  ⟨by decide, by decide, by decide,
    (start_after_walk_error samplePath brokenFs ⟨1, 0, 0⟩ "new" sampleParams (by decide)
      (by decide) (by decide)).1,
    (start_after_walk_error samplePath brokenFs ⟨1, 0, 0⟩ "new" sampleParams (by decide)
      (by decide) (by decide)).2.1⟩

/-! ## Command words -/

theorem countFrom_space (l : List Char) : strings.countFrom [' '] l 0 = l.count ' ' := by
  induction l with
  | nil => rfl
  | cons c cs ih =>
    by_cases hc : c = ' '
    · subst hc
      simp [strings.countFrom, List.isPrefixOf, ih]
      omega
    · have hne : (' ' == c) = false := by
        simpa using fun h : ' ' = c => hc h.symm
      have hne2 : (c == ' ') = false := by simpa using hc
      simp [strings.countFrom, List.isPrefixOf, ih, hne, hne2, List.count_cons]

theorem Count_space (s : String) : strings.Count s tool.commandWordSep = spaces s := by
  simp [strings.Count, tool.commandWordSep, spaces, countFrom_space]

theorem count_joinChars (w : List Char) (ws : List (List Char)) :
    (strings.joinChars [' '] (w :: ws)).count ' ' =
      ws.length + ((w :: ws).map (List.count ' ')).sum := by
  induction ws generalizing w with
  | nil => simp [strings.joinChars]
  | cons w' ws ih =>
    simp only [strings.joinChars, List.count_append, ih w', List.map_cons, List.sum_cons,
      List.length_cons]
    simp
    omega

theorem splitSpaces_ne_nil (l : List Char) : splitSpaces l ≠ [] := by
  cases l with
  | nil => simp [splitSpaces]
  | cons c cs =>
    simp only [splitSpaces]
    split
    · simp
    · split <;> simp

theorem splitSpaces_word (w : List Char) (hw : w.count ' ' = 0) : splitSpaces w = [w] := by
  induction w with
  | nil => rfl
  | cons c cs ih =>
    have hc : ¬c = ' ' := by
      intro h
      subst h
      simp at hw
    have hcs : cs.count ' ' = 0 := by
      have hb : (c == ' ') = false := by simpa using hc
      simpa [List.count_cons, hb] using hw
    simp [splitSpaces, hc, ih hcs]

theorem splitSpaces_word_space (w rest : List Char) (hw : w.count ' ' = 0) :
    splitSpaces (w ++ ' ' :: rest) = w :: splitSpaces rest := by
  induction w with
  | nil => simp [splitSpaces]
  | cons c cs ih =>
    have hc : ¬c = ' ' := by
      intro h
      subst h
      simp at hw
    have hcs : cs.count ' ' = 0 := by
      have hb : (c == ' ') = false := by simpa using hc
      simpa [List.count_cons, hb] using hw
    simp [splitSpaces, hc, ih hcs]

theorem splitSpaces_joinChars (w : List Char) (ws : List (List Char))
    (h : ∀ x ∈ w :: ws, x.count ' ' = 0) :
    splitSpaces (strings.joinChars [' '] (w :: ws)) = w :: ws := by
  induction ws generalizing w with
  | nil => exact splitSpaces_word w (h w (List.mem_cons_self _ _))
  | cons w' ws ih =>
    have hw : w.count ' ' = 0 := h w (List.mem_cons_self _ _)
    have hrest : ∀ x ∈ w' :: ws, x.count ' ' = 0 := fun x hx => h x (List.mem_cons_of_mem _ hx)
    simp only [strings.joinChars, List.append_assoc, List.singleton_append]
    rw [splitSpaces_word_space _ _ hw, ih w' hrest]

theorem sum_eq_zero_of_mem {l : List Nat} (h : l.sum = 0) : ∀ n ∈ l, n = 0 := by
  induction l with
  | nil => intro n hn; simp at hn
  | cons a l ih =>
    intro n hn
    simp only [List.sum_cons] at h
    rcases List.mem_cons.mp hn with rfl | hn
    · omega
    · exact ih (by omega) n hn

theorem Requested_true (h : tool.Handler) (args rest : List String)
    (hreq : h.Requested args = (rest, true)) :
    spaces h.Name + 1 ≤ args.length ∧
      strings.Join (args.take (spaces h.Name + 1)) tool.commandWordSep = h.Name ∧
      rest = args.drop (spaces h.Name + 1) := by
  simp only [tool.Handler.Requested, Count_space] at hreq
  by_cases h1 : args.length < spaces h.Name + 1
  · simp [h1] at hreq
  · by_cases h2 : h.Name = strings.Join (args.take (spaces h.Name + 1)) tool.commandWordSep
    · simp only [h1, if_false, ne_eq, ← h2, not_true_eq_false, Prod.mk.injEq, and_true] at hreq
      exact ⟨by omega, h2.symm, hreq.symm⟩
    · simp [h1, h2] at hreq

/-- C15: with `num` the number of spaces in the name of the handler plus one,
`Requested(args)` returns `(args[num:], true)` exactly when there are at least
`num` arguments and the first `num` of them, joined by single spaces, are the
name; in every other case it returns `(nil, false)`. -/
theorem requested_iff (h : tool.Handler) (args : List String) :
    (h.Requested args = (args.drop (spaces h.Name + 1), true) ↔
        spaces h.Name + 1 ≤ args.length ∧
          strings.Join (args.take (spaces h.Name + 1)) " " = h.Name) ∧
      (¬(spaces h.Name + 1 ≤ args.length ∧
          strings.Join (args.take (spaces h.Name + 1)) " " = h.Name) →
        h.Requested args = ([], false)) := by
  refine ⟨⟨?_, ?_⟩, ?_⟩
  · intro hreq
    obtain ⟨h1, h2, _⟩ := Requested_true h args _ hreq
    exact ⟨h1, h2⟩
  · rintro ⟨h1, h2⟩
    have h1' : ¬args.length < spaces h.Name + 1 := by omega
    have h2' : h.Name = strings.Join (args.take (spaces h.Name + 1)) tool.commandWordSep :=
      h2.symm
    simp only [tool.Handler.Requested, Count_space, h1', if_false, ne_eq]
    rw [if_neg (by simpa using h2')]
  · intro hneg
    simp only [tool.Handler.Requested, Count_space]
    by_cases h1 : args.length < spaces h.Name + 1
    · simp [h1]
    · have h2 : ¬h.Name = strings.Join (args.take (spaces h.Name + 1)) tool.commandWordSep := by
        intro h2
        exact hneg ⟨by omega, h2.symm⟩
      simp [h1, h2]

theorem requested_iff_witness :
    generateHandler.Requested ["generate", "stuff", "a"] = (["a"], true) ∧
      generateHandler.Requested ["generate stuff", "a"] = ([], false) ∧
      (spaces generateHandler.Name + 1 ≤ ["generate", "stuff", "a"].length ∧
        strings.Join (["generate", "stuff", "a"].take (spaces generateHandler.Name + 1)) " " =
          generateHandler.Name) :=
  ⟨by decide, by decide,
    (requested_iff generateHandler ["generate", "stuff", "a"]).1.mp (by decide)⟩

/-- C18: when `Requested(args)` returns `(rest, true)`, none of the leading
arguments it consumed contains a space, and `args` is the words of the name
(the name split on single spaces) followed by `rest`: an argument with a space
in it is never matched as part of a command name. -/
theorem requested_consumes_words (h : tool.Handler) (args rest : List String)
    (hreq : h.Requested args = (rest, true)) :
    (∀ a ∈ args.take (spaces h.Name + 1), ' ' ∉ a.data) ∧
      args.take (spaces h.Name + 1) = words h.Name ∧
      args = words h.Name ++ rest := by
  obtain ⟨hlen, hjoin, hrest⟩ := Requested_true h args rest hreq
  have htl : (args.take (spaces h.Name + 1)).length = spaces h.Name + 1 := by
    rw [List.length_take]; omega
  cases htake : args.take (spaces h.Name + 1) with
  | nil => rw [htake] at htl; simp at htl
  | cons a as =>
    rw [htake] at htl hjoin
    have hdata : h.Name.data = strings.joinChars [' '] (a.data :: as.map String.data) := by
      rw [← hjoin]; rfl
    have hcount := count_joinChars a.data (as.map String.data)
    rw [← hdata] at hcount
    have hsp : h.Name.data.count ' ' = as.length := by
      have : spaces h.Name = h.Name.data.count ' ' := rfl
      simp only [List.length_cons] at htl
      omega
    have hsum : ((a.data :: as.map String.data).map (List.count ' ')).sum = 0 := by
      rw [hsp] at hcount
      simp only [List.length_map] at hcount
      omega
    have hzero : ∀ x ∈ a.data :: as.map String.data, x.count ' ' = 0 := by
      intro x hx
      exact sum_eq_zero_of_mem hsum _ (List.mem_map_of_mem _ hx)
    have hwords : words h.Name = a :: as := by
      unfold words
      rw [hdata, splitSpaces_joinChars _ _ hzero]
      have hid : ∀ l : List String, (l.map String.data).map String.mk = l := by
        intro l
        induction l with
        | nil => rfl
        | cons x l ih => simp only [List.map_cons, ih]
      simp only [List.map_cons, hid]
    refine ⟨?_, hwords.symm, ?_⟩
    · intro x hx hmem
      have hx' : x.data ∈ a.data :: as.map String.data := by
        rcases List.mem_cons.mp hx with rfl | hx
        · exact List.mem_cons_self _ _
        · exact List.mem_cons_of_mem _ (List.mem_map_of_mem _ hx)
      have := hzero _ hx'
      exact (List.count_eq_zero.mp this) hmem
    · rw [hwords, ← htake, hrest]
      exact (List.take_append_drop _ _).symm

theorem requested_consumes_words_witness :
    generateHandler.Requested ["generate", "stuff", "a b"] = (["a b"], true) ∧
      ["generate", "stuff", "a b"] = words generateHandler.Name ++ ["a b"] :=
  ⟨by decide,
    (requested_consumes_words generateHandler ["generate", "stuff", "a b"] ["a b"]
      (by decide)).2.2⟩

/-! ## `Context.Run` -/

theorem runFrom_none (list : List tool.Handler) (args : List String) (rest : List tool.Handler)
    (i : Nat) (h : ∀ g ∈ rest, (g.Requested args).2 = false) :
    tool.runFrom list args rest i =
      ⟨[], some ("unknown command \"" ++ strings.Join args tool.commandWordSep ++ "\""), none⟩ := by
  induction rest generalizing i with
  | nil => rfl
  | cons g rest ih =>
    have hg : (g.Requested args).2 = false := h g (List.mem_cons_self _ _)
    have hpair : g.Requested args = ((g.Requested args).1, false) := Prod.ext rfl hg
    rw [tool.runFrom]
    split
    · next lst heq =>
      rw [heq] at hg
      cases hg
    · exact ih _ (fun x hx => h x (List.mem_cons_of_mem _ hx))

theorem runFrom_first (list : List tool.Handler) (args : List String)
    (pre : List tool.Handler) (g : tool.Handler) (post : List tool.Handler) (lst : List String)
    (i : Nat) (hpre : ∀ x ∈ pre, (x.Requested args).2 = false)
    (hg : g.Requested args = (lst, true)) :
    tool.runFrom list args (pre ++ g :: post) i =
      match g.Flags.Parse lst with
      | .error err => ⟨[], some err, none⟩
      | .ok nonFlag => ⟨[⟨list, i + pre.length, nonFlag⟩], none, none⟩ := by
  induction pre generalizing i with
  | nil =>
    simp only [List.nil_append, tool.runFrom, hg, List.length_nil, Nat.add_zero]
  | cons x pre ih =>
    have hx : (x.Requested args).2 = false := hpre x (List.mem_cons_self _ _)
    rw [List.cons_append, tool.runFrom]
    split
    · next l heq =>
      rw [heq] at hx
      cases hx
    · rw [ih (i + 1) (fun y hy => hpre y (List.mem_cons_of_mem _ hy))]
      simp only [List.length_cons]
      have : i + 1 + pre.length = i + (pre.length + 1) := by omega
      rw [this]

theorem runFrom_shape (list : List tool.Handler) (args : List String) (rest : List tool.Handler)
    (i : Nat) :
    (tool.runFrom list args rest i).panic = none ∧
      (((tool.runFrom list args rest i).started.length = 1 ∧
          (tool.runFrom list args rest i).err = none) ∨
        ((tool.runFrom list args rest i).started = [] ∧
          (tool.runFrom list args rest i).err.isSome = true)) := by
  induction rest generalizing i with
  | nil => simp [tool.runFrom]
  | cons g rest ih =>
    rw [tool.runFrom]
    split
    · split <;> simp
    · exact ih _

theorem findDefault_first (pre : List tool.Handler) (g : tool.Handler) (post : List tool.Handler)
    (i : Nat) (hpre : ∀ x ∈ pre, x.Default = false) (hg : g.Default = true) :
    tool.findDefault (pre ++ g :: post) i = some (i + pre.length) := by
  induction pre generalizing i with
  | nil => simp [tool.findDefault, hg]
  | cons x pre ih =>
    have hx : x.Default = false := hpre x (List.mem_cons_self _ _)
    have ih' := ih (i + 1) (fun y hy => hpre y (List.mem_cons_of_mem _ hy))
    rw [List.cons_append, tool.findDefault]
    simp only [hx, Bool.false_eq_true, if_false, List.length_cons]
    rw [ih']
    congr 1
    omega

theorem findDefault_none (hs : List tool.Handler) (i : Nat) (h : ∀ x ∈ hs, x.Default = false) :
    tool.findDefault hs i = none := by
  induction hs generalizing i with
  | nil => rfl
  | cons x hs ih =>
    have hx : x.Default = false := h x (List.mem_cons_self _ _)
    simp only [tool.findDefault, hx, Bool.false_eq_true, if_false]
    exact ih _ (fun y hy => h y (List.mem_cons_of_mem _ hy))

/-- C13, as stated, fails: `new` is the first handler whose `Requested`
succeeds on these arguments, yet `Run` starts no handler and returns the error
of parsing the flags. -/
theorem run_flag_error_starts_nothing :
    newHandler.Requested ["new", "-x"] = (["-x"], true) ∧
      ((tool.NewContext [newHandler, runHandler, generateHandler]).Run
        ["new", "-x"]).started.length = 0 ∧
      ((tool.NewContext [newHandler, runHandler, generateHandler]).Run ["new", "-x"]).err =
        some "flag provided but not defined: -x" := by
  decide

/-- C13, amended: for a non-empty argument list `Run` either starts exactly
one handler or returns an error.  It takes the first handler in registration
order whose `Requested(args)` succeeds, later matches being ignored, and
parses its flags over the arguments after the command name: if that succeeds
it starts this handler, with the handler list, its index and the non-flag
arguments, and returns nil; if it fails it starts no handler and returns the
error of the parse.  If no handler matches it starts none and returns
`unknown command "<args joined by spaces>"`. -/
theorem run_dispatch (c : tool.Context) (args : List String) (hargs : args ≠ []) :
    ((∀ g ∈ c.list, (g.Requested args).2 = false) →
        c.Run args = ⟨[], some ("unknown command \"" ++ strings.Join args " " ++ "\""), none⟩) ∧
      (∀ pre g post lst, c.list = pre ++ g :: post →
        (∀ x ∈ pre, (x.Requested args).2 = false) → g.Requested args = (lst, true) →
        (∀ nonFlag, g.Flags.Parse lst = .ok nonFlag →
          c.Run args = ⟨[⟨c.list, pre.length, nonFlag⟩], none, none⟩) ∧
        (∀ err, g.Flags.Parse lst = .error err → c.Run args = ⟨[], some err, none⟩)) ∧
      (c.Run args).panic = none ∧
      (((c.Run args).started.length = 1 ∧ (c.Run args).err = none) ∨
        ((c.Run args).started = [] ∧ (c.Run args).err.isSome = true)) := by
  have hlen : ¬args.length = 0 := by
    intro h
    exact hargs (List.length_eq_zero.mp h)
  have hrun : c.Run args = tool.runFrom c.list args c.list 0 := by
    simp only [tool.Context.Run, hlen, if_false]
  refine ⟨?_, ?_, ?_, ?_⟩
  · intro hnone
    rw [hrun]
    exact runFrom_none c.list args c.list 0 hnone
  · intro pre g post lst hlist hpre hg
    have hfirst := runFrom_first c.list args pre g post lst 0 hpre hg
    rw [← hlist] at hfirst
    refine ⟨?_, ?_⟩
    · intro nonFlag hparse
      rw [hrun, hfirst, hparse]
      simp
    · intro err hparse
      rw [hrun, hfirst, hparse]
  · rw [hrun]
    exact (runFrom_shape c.list args c.list 0).1
  · rw [hrun]
    exact (runFrom_shape c.list args c.list 0).2

theorem run_dispatch_witness :
    (["generate", "stuff", "a"] : List String) ≠ [] ∧
      ((tool.NewContext [newHandler, runHandler, generateHandler]).Run
        ["generate", "stuff", "a"]).panic = none ∧
      (((tool.NewContext [newHandler, runHandler, generateHandler]).Run
          ["generate", "stuff", "a"]).started.map fun s => (s.i, s.args)) = [(2, ["a"])] :=
  ⟨by decide,
    (run_dispatch (tool.NewContext [newHandler, runHandler, generateHandler])
      ["generate", "stuff", "a"] (by decide)).2.2.1,
    by decide⟩

/-- C14: with an empty argument list, `NewContext(hs...).Run` starts exactly
the handler at the smallest index whose `Default` is set, later default
handlers being ignored, passes it the handler list, that index and the empty
arguments, and returns nil; when no handler has `Default` set it starts none
and returns the error `no command specified`. -/
theorem run_default (hs : List tool.Handler) :
    (∀ pre g post, hs = pre ++ g :: post → (∀ x ∈ pre, x.Default = false) → g.Default = true →
        (tool.NewContext hs).Run [] = ⟨[⟨hs, pre.length, []⟩], none, none⟩) ∧
      ((∀ x ∈ hs, x.Default = false) →
        (tool.NewContext hs).Run [] = ⟨[], some "no command specified", none⟩) := by
  refine ⟨?_, ?_⟩
  · intro pre g post hhs hpre hg
    have hfind := findDefault_first pre g post 0 hpre hg
    rw [← hhs] at hfind
    have hlt : pre.length < hs.length := by
      rw [hhs, List.length_append, List.length_cons]
      omega
    simp only [tool.Context.Run, tool.NewContext, hfind, List.length_nil, if_true, Nat.zero_add,
      hlt]
  · intro hnone
    simp only [tool.Context.Run, tool.NewContext, findDefault_none hs 0 hnone, List.length_nil,
      if_true]

theorem run_default_witness :
    [newHandler, runHandler, generateHandler] = [newHandler] ++ runHandler :: [generateHandler] ∧
      (tool.NewContext [newHandler, runHandler, generateHandler]).Run [] =
        ⟨[⟨[newHandler, runHandler, generateHandler], 1, []⟩], none, none⟩ ∧
      (tool.NewContext [newHandler]).Run [] = ⟨[], some "no command specified", none⟩ :=
  ⟨rfl,
    (run_default [newHandler, runHandler, generateHandler]).1 [newHandler] runHandler
      [generateHandler] rfl (by decide) rfl,
    (run_default [newHandler]).2 (by decide)⟩

/-- C16 does not hold of the code: for a negative index, which does not exist
in any `Data`, `GetDefault` indexes the slice and panics where the claim has
it return the default value.  For an index that is not negative it returns
the element when there is one and the default value otherwise. -/
theorem getDefault_negative_index :
    tool.Data.GetDefault ["run"] (-1) "./" = .error "index out of range" ∧
      (∀ (a : tool.Data) (n : Nat) (d : String),
        tool.Data.GetDefault a (Int.negSucc n) d = .error "index out of range") ∧
      (∀ (a : tool.Data) (k : Nat) (d : String),
        tool.Data.GetDefault a (k : Int) d = .ok (a.getD k d)) := by
  refine ⟨rfl, ?_, ?_⟩
  · intro a n d
    have hlt : ¬Int.negSucc n ≥ (a.length : Int) := by
      have := Int.negSucc_lt_zero n
      omega
    simp only [tool.Data.GetDefault, hlt, if_false]
  · intro a k d
    by_cases hk : (k : Int) ≥ (a.length : Int)
    · have hk' : a.length ≤ k := by omega
      simp only [tool.Data.GetDefault, hk, if_true]
      rw [List.getD_eq_default _ _ hk']
    · have hk' : k < a.length := by omega
      have hget : a.get? k = some (a.get ⟨k, hk'⟩) := List.get?_eq_get hk'
      simp only [tool.Data.GetDefault, hk, if_false]
      show (match a.get? k with
        | some v => Except.ok v
        | none => Except.error "index out of range") = _
      rw [hget]
      simp [List.getElem?_eq_getElem hk']

/-! ## The notice of `start` -/

theorem start_shape (p : PathPkg) (fs : FileSystem) (ord : MapOrder) (action : String)
    (params : Data) (hnew : IsNotExist (fs.Stat (outputDir p action params)) = true) :
    ∃ pre, start p fs ord action params =
        ⟨pre ++ [Effect.info (newImport p action params)], none⟩ ∧
      ∀ e ∈ pre, ∀ s, e ≠ Effect.info s := by
  obtain ⟨ws, hws, hwarn, _⟩ :=
    runVisits_walkFunc_log p (inputDir p) (template p fs) (⟨[], [], []⟩, [])
  have hnew2 : IsNotExist (fs.Stat (p.PackageDir (p.AbsoluteImport (params.Default action "./"))))
      = true := hnew
  have hW : Walk fs (p.SunplateDir "skeleton") (walkFunc p (p.SunplateDir "skeleton")).2
      ((walkFunc p (p.SunplateDir "skeleton")).1, []) =
      runVisits (walkFunc p (inputDir p)).2 (template p fs) (⟨[], [], []⟩, []) :=
    Walk_walkFunc p fs (inputDir p) _
  refine ⟨ws ++
      (GoMap.range ord.dirs (runVisits (walkFunc p (inputDir p)).2 (template p fs)
        (⟨[], [], []⟩, [])).1.1.dirs).map
        (fun kv => Effect.createDir (Join (outputDir p action params) kv.2)) ++
      (GoMap.range ord.files (runVisits (walkFunc p (inputDir p)).2 (template p fs)
        (⟨[], [], []⟩, [])).1.1.files).map
        (fun kv => Effect.copyFile kv.1 (Join (outputDir p action params) kv.2)) ++
      (GoMap.range ord.srcs (runVisits (walkFunc p (inputDir p)).2 (template p fs)
        (⟨[], [], []⟩, [])).1.1.srcs).map
        (fun kv => Effect.copyModifiedFile kv.1 (Join (outputDir p action params) kv.2)
          [(oldImport p, newImport p action params)]), ?_, ?_⟩
  · simp only [start, hnew2, Bool.not_true, Bool.false_eq_true, if_false, hW, hws,
      List.nil_append]
    rfl
  · intro e he s hes
    subst hes
    simp only [List.mem_append, List.mem_map] at he
    rcases he with ((he | ⟨kv, _, hkv⟩) | ⟨kv, _, hkv⟩) | ⟨kv, _, hkv⟩
    · obtain ⟨err, herr⟩ := hwarn _ he
      cases herr
    · cases hkv
    · cases hkv
    · cases hkv

theorem cutAtFailure_notice (fails : Effect → Bool) (pre : List Effect) (s : String)
    (hpre : ∀ e ∈ pre, ∀ t, e ≠ Effect.info t) :
    (Effect.info s ∈ (cutAtFailure fails (pre ++ [Effect.info s])).1 ↔
        ∀ e ∈ pre, e.mutates = true → fails e = false) ∧
      ((cutAtFailure fails (pre ++ [Effect.info s])).2 = false ↔
        ∀ e ∈ pre, e.mutates = true → fails e = false) := by
  induction pre with
  | nil => simp [cutAtFailure, Effect.mutates]
  | cons a pre ih =>
    have ih' := ih (fun e he => hpre e (List.mem_cons_of_mem _ he))
    have ha : ∀ t, a ≠ Effect.info t := hpre a (List.mem_cons_self _ _)
    by_cases hf : (a.mutates && fails a) = true
    · have hm : a.mutates = true ∧ fails a = true := by simpa using hf
      have hno : ¬∀ e ∈ a :: pre, e.mutates = true → fails e = false := by
        intro h
        have := h a (List.mem_cons_self _ _) hm.1
        rw [hm.2] at this
        cases this
      have hcut : cutAtFailure fails ((a :: pre) ++ [Effect.info s]) = ([a], true) := by
        simp only [List.cons_append, cutAtFailure, hf, if_true]
      rw [hcut]
      refine ⟨⟨fun h => ?_, fun h => absurd h hno⟩, ⟨fun h => ?_, fun h => absurd h hno⟩⟩
      · exact absurd (List.mem_singleton.mp h).symm (ha s)
      · cases h
    · have hm : a.mutates = true → fails a = false := by
        intro h1
        cases h2 : fails a
        · rfl
        · exact absurd (by simp [h1, h2]) hf
      have hcut : cutAtFailure fails ((a :: pre) ++ [Effect.info s]) =
          (a :: (cutAtFailure fails (pre ++ [Effect.info s])).1,
            (cutAtFailure fails (pre ++ [Effect.info s])).2) := by
        simp only [List.cons_append, cutAtFailure, hf, Bool.false_eq_true, if_false]
        rfl
      have hall : (∀ e ∈ a :: pre, e.mutates = true → fails e = false) ↔
          ∀ e ∈ pre, e.mutates = true → fails e = false := by
        constructor
        · intro h e he
          exact h e (List.mem_cons_of_mem _ he)
        · intro h e he
          rcases List.mem_cons.mp he with rfl | he
          · exact hm
          · exact h e he
      rw [hcut, hall]
      refine ⟨⟨fun h => ?_, fun h => List.mem_cons_of_mem _ (ih'.1.mpr h)⟩, ih'.2⟩
      rcases List.mem_cons.mp h with h | h
      · exact absurd h.symm (ha s)
      · exact ih'.1.mp h

/-- C11, as stated, fails: the walk of this template reports an error, and the
run of `start` still prints the success notice. -/
theorem notice_after_walk_error :
    walkError samplePath brokenFs ≠ none ∧
      Effect.info "acme/widget" ∈
        (start samplePath brokenFs ⟨1, 0, 0⟩ "new" sampleParams).effects ∧
      Effect.info "acme/widget" ∈
        (startWithFailures (fun _ => false) samplePath brokenFs ⟨1, 0, 0⟩ "new"
          sampleParams).effects := by
  decide

/-- C11, amended: `start` prints the success notice exactly when the output
directory does not exist and every create and copy call it makes returns; the
run then ends without panic.  An error of the traversal plays no part: the
notice is printed after it all the same. -/
theorem notice_iff (fails : Effect → Bool) (p : PathPkg) (fs : FileSystem) (ord : MapOrder)
    (action : String) (params : Data) :
    (Effect.info (newImport p action params) ∈
          (startWithFailures fails p fs ord action params).effects ↔
        IsNotExist (fs.Stat (outputDir p action params)) = true ∧
          ∀ e ∈ (start p fs ord action params).effects, e.mutates = true → fails e = false) ∧
      ((startWithFailures fails p fs ord action params).panic = none ↔
        IsNotExist (fs.Stat (outputDir p action params)) = true ∧
          ∀ e ∈ (start p fs ord action params).effects, e.mutates = true → fails e = false) := by
  cases hnew : IsNotExist (fs.Stat (outputDir p action params))
  · have hnew2 : IsNotExist
        (fs.Stat (p.PackageDir (p.AbsoluteImport (params.Default action "./")))) = false := hnew
    have hstart : start p fs ord action params =
        ⟨[], some ("Abort: Import path \"" ++ p.AbsoluteImport (params.Default action "./") ++
          "\" already exists.")⟩ := by
      simp [start, hnew2]
    simp [startWithFailures, hstart]
  · obtain ⟨pre, hstart, hpre⟩ := start_shape p fs ord action params hnew
    have hcut := cutAtFailure_notice fails pre (newImport p action params) hpre
    have hall : (∀ e ∈ pre ++ [Effect.info (newImport p action params)],
        e.mutates = true → fails e = false) ↔ ∀ e ∈ pre, e.mutates = true → fails e = false := by
      constructor
      · intro h e he
        exact h e (List.mem_append_left _ he)
      · intro h e he
        rcases List.mem_append.mp he with he | he
        · exact h e he
        · rw [List.mem_singleton.mp he]
          intro hm
          cases hm
    simp only [startWithFailures, hstart, true_and, hall]
    refine ⟨hcut.1, ?_⟩
    rw [← hcut.2]
    cases (cutAtFailure fails (pre ++ [Effect.info (newImport p action params)])).2 <;> simp

theorem notice_iff_witness :
    IsNotExist (skeletonFs.Stat (outputDir samplePath "new" sampleParams)) = true ∧
      Effect.info (newImport samplePath "new" sampleParams) ∉
        (startWithFailures (fun e => e = Effect.createDir "/src/acme/widget/assets") samplePath
          skeletonFs ⟨0, 0, 0⟩ "new" sampleParams).effects :=
  ⟨by decide, fun h =>
    absurd (((notice_iff (fun e => e = Effect.createDir "/src/acme/widget/assets") samplePath
      skeletonFs ⟨0, 0, 0⟩ "new" sampleParams).1.mp h).2
        (Effect.createDir "/src/acme/widget/assets") (by decide) rfl) (by decide)⟩

/-! ## `Listen` -/

theorem attempted_append (xs ys : List ListenEffect) :
    attempted (xs ++ ys) = attempted xs ++ attempted ys := by
  induction xs with
  | nil => rfl
  | cons a xs ih => cases a <;> simp [attempted, ih]

theorem attempted_registerAll (n : Notify) (i : Nat) (ds : List String) :
    attempted (registerAll n i ds) = ds := by
  induction ds generalizing i with
  | nil => rfl
  | cons d ds ih =>
    simp only [registerAll, attempted, attempted_append, ih]
    cases n.Add i d <;> simp [attempted]

theorem count_go_registerAll (n : Notify) (i : Nat) (ds : List String) :
    (registerAll n i ds).count ListenEffect.go = 0 := by
  induction ds generalizing i with
  | nil => rfl
  | cons d ds ih =>
    simp only [registerAll, List.count_cons, List.count_append, ih]
    cases n.Add i d <;> simp

/-- C12: when the watcher was made, `Listen` calls `w.Add` for every
directory of `glob(pattern)`, in list order and whatever the earlier calls
returned, and then starts the monitoring task, once: a failed registration is
a warning and nothing more. -/
theorem listen_registers_all (n : Notify) (fs : FileSystem) (pattern : String)
    (hw : n.NewWatcher = none) (ha : n.AssertNil none = true) :
    (Listen n fs pattern).panic = none ∧
      (Listen n fs pattern).effects = registerAll n 0 (glob fs pattern) ++ [ListenEffect.go] ∧
      attempted (Listen n fs pattern).effects = glob fs pattern ∧
      (Listen n fs pattern).effects.getLast? = some ListenEffect.go ∧
      (Listen n fs pattern).effects.count ListenEffect.go = 1 := by
  have hL : Listen n fs pattern = ⟨registerAll n 0 (glob fs pattern) ++ [ListenEffect.go], none⟩ := by
    simp [Listen, hw, ha]
  rw [hL]
  refine ⟨rfl, rfl, ?_, ?_, ?_⟩
  · simp [attempted_append, attempted_registerAll, attempted]
  · simp
  · simp [List.count_append, count_go_registerAll]

theorem listen_registers_all_witness :
    flakyNotify.NewWatcher = none ∧ flakyNotify.AssertNil none = true ∧
      flakyNotify.Add 0 "foo/" ≠ none ∧
      attempted (Listen flakyNotify twoBranches "foo/*").effects = ["foo/", "foo/a"] ∧
      (Listen flakyNotify twoBranches "foo/*").effects.getLast? = some ListenEffect.go :=
  ⟨rfl, rfl, by decide,
    (listen_registers_all flakyNotify twoBranches "foo/*" rfl rfl).2.2.1.trans (by decide),
    (listen_registers_all flakyNotify twoBranches "foo/*" rfl rfl).2.2.2.1⟩

/-- C17: for a pattern ending in `'*'` whose path without the `'*'` does not
exist, cannot be read, or is a plain file, `glob` returns the empty list (it
has no error result), and `Listen` registers no directory for the pattern. -/
theorem glob_unusable_root (fs : FileSystem) (pattern : String)
    (h : pattern.data.getLast? = some '*')
    (hroot : (∃ e, fs.Lstat (String.mk pattern.data.dropLast) = FsNode.missing e) ∨
      (∃ e entries, fs.Lstat (String.mk pattern.data.dropLast) = FsNode.dir (some e) entries) ∨
      fs.Lstat (String.mk pattern.data.dropLast) = FsNode.file) :
    glob fs pattern = [] ∧ ∀ n : Notify, attempted (Listen n fs pattern).effects = [] := by
  have hg : glob fs pattern = [] := by
    rw [glob_of_star fs pattern h]
    rcases hroot with ⟨e, he⟩ | ⟨e, entries, he⟩ | he
    · rw [he]; simp [visits, List.takeWhile, Visit.isDirectory]
    · rw [he]; simp [visits, List.takeWhile, Visit.isDirectory]
    · rw [he]; simp [visits, List.takeWhile, Visit.isDirectory, IsDir]
  refine ⟨hg, ?_⟩
  intro n
  simp only [Listen, hg]
  split
  · rfl
  · split
    · rfl
    · simp [registerAll, attempted]

theorem glob_unusable_root_witness :
    "gone/*".data.getLast? = some '*' ∧
      goneFs.Lstat (String.mk "gone/*".data.dropLast) = FsNode.missing FsErr.notExist ∧
      glob goneFs "gone/*" = [] ∧
      attempted (Listen flakyNotify goneFs "gone/*").effects = [] :=
  ⟨by decide, rfl,
    (glob_unusable_root goneFs "gone/*" (by decide) (Or.inl ⟨FsErr.notExist, rfl⟩)).1,
    (glob_unusable_root goneFs "gone/*" (by decide) (Or.inl ⟨FsErr.notExist, rfl⟩)).2
      flakyNotify⟩

end Sunplate
